import Mathlib

/-!
Verification of the sudokuSAT solver core: a shallow embedding of the
backtracking solver (src/solver/backtracking.rs), the SAT encoding
(src/solver/sat.rs) and the solver factory (src/solver/mod.rs),
together with proofs of the specification's claims about them.
-/

/-- A 9x9 board of `usize` entries; `0` denotes an empty cell
(Rust type `[[usize; 9]; 9]`). -/
abbrev Grid := Fin 9 → Fin 9 → Nat

/-- Equality of grids is decidable cell by cell; this instance reduces well
in the kernel, unlike the generic pi-type instance. -/
instance (priority := 2000) Grid.decEq : DecidableEq Grid := fun g1 g2 =>
  decidable_of_iff (∀ r c : Fin 9, g1 r c = g2 r c)
    ⟨fun h => funext fun r => funext fun c => h r c, fun h r c => by rw [h]⟩

/-- Equality of optional grids, again phrased so that kernel reduction never
transports a decision across a function-extensionality proof. -/
instance (priority := 2000) optionGridDecEq : DecidableEq (Option Grid) := fun o1 o2 =>
  match o1, o2 with
  | none, none => isTrue rfl
  | none, some _ => isFalse (fun h => Option.noConfusion h)
  | some _, none => isFalse (fun h => Option.noConfusion h)
  | some a, some b =>
    match Grid.decEq a b with
    | isTrue h => isTrue (congrArg some h)
    | isFalse h => isFalse (fun e => h (Option.some.inj e))

/-- Build a grid from a list of rows; missing entries default to 0
(used only to write down concrete test boards). -/
def Grid.ofRows (L : List (List Nat)) : Grid := fun r c => ((L.getD r.val []).getD c.val 0)

/-- Every entry of the grid lies in 0..9 (the spec's well-formedness). -/
def wellFormed (g : Grid) : Prop := ∀ r c : Fin 9, g r c ≤ 9

instance (g : Grid) : Decidable (wellFormed g) :=
  decidable_of_iff (∀ r c : Fin 9, g r c ≤ 9) Iff.rfl

/-- Cells in the same 3x3 box, i.e. equal row-block and column-block indices. -/
def sameBox (r c rr cc : Fin 9) : Prop := r.val / 3 = rr.val / 3 ∧ c.val / 3 = cc.val / 3

instance (r c rr cc : Fin 9) : Decidable (sameBox r c rr cc) :=
  decidable_of_iff (r.val / 3 = rr.val / 3 ∧ c.val / 3 = cc.val / 3) Iff.rfl

/-- Cells in the same row, column or 3x3 box. -/
def sameUnit (r c rr cc : Fin 9) : Prop := r = rr ∨ c = cc ∨ sameBox r c rr cc

instance (r c rr cc : Fin 9) : Decidable (sameUnit r c rr cc) :=
  decidable_of_iff (r = rr ∨ c = cc ∨ sameBox r c rr cc) Iff.rfl

/-- No two distinct cells of one row, column or box hold the same nonzero digit. -/
def consistentGrid (g : Grid) : Prop :=
  ∀ r c rr cc : Fin 9, sameUnit r c rr cc → (r ≠ rr ∨ c ≠ cc) → g r c ≠ 0 → g r c ≠ g rr cc

instance (g : Grid) : Decidable (consistentGrid g) :=
  decidable_of_iff
    (∀ r c rr cc : Fin 9, sameUnit r c rr cc → (r ≠ rr ∨ c ≠ cc) → g r c ≠ 0 → g r c ≠ g rr cc)
    Iff.rfl

/-- Every cell of the grid is filled (no zeros). -/
def noZeros (g : Grid) : Prop := ∀ r c : Fin 9, g r c ≠ 0

instance (g : Grid) : Decidable (noZeros g) :=
  decidable_of_iff (∀ r c : Fin 9, g r c ≠ 0) Iff.rfl

/-- The solution agrees with the puzzle on every nonzero clue cell. -/
def agreesClues (p s : Grid) : Prop := ∀ r c : Fin 9, p r c ≠ 0 → s r c = p r c

instance (p s : Grid) : Decidable (agreesClues p s) :=
  decidable_of_iff (∀ r c : Fin 9, p r c ≠ 0 → s r c = p r c) Iff.rfl

/-- A completion of puzzle `p`: a well-formed, complete (consistent and
zero-free) grid agreeing with `p` on all clue cells. -/
def completionOf (p s : Grid) : Prop :=
  wellFormed s ∧ consistentGrid s ∧ noZeros s ∧ agreesClues p s

instance (p s : Grid) : Decidable (completionOf p s) :=
  decidable_of_iff (wellFormed s ∧ consistentGrid s ∧ noZeros s ∧ agreesClues p s) Iff.rfl

/-- The grid contains a directly contradictory pair of clues: the same nonzero
digit twice in one row, column or box. -/
def hasContraPair (g : Grid) : Prop :=
  ∃ r c rr cc : Fin 9, sameUnit r c rr cc ∧ (r ≠ rr ∨ c ≠ cc) ∧ g r c ≠ 0 ∧ g r c = g rr cc

instance (g : Grid) : Decidable (hasContraPair g) :=
  decidable_of_iff
    (∃ r c rr cc : Fin 9, sameUnit r c rr cc ∧ (r ≠ rr ∨ c ≠ cc) ∧ g r c ≠ 0 ∧ g r c = g rr cc)
    Iff.rfl

/-! ## Backtracking solver (src/solver/backtracking.rs) -/

/-- Mirrors `is_valid`: placing digit `d` at `(row, col)` conflicts with no cell
of the same row, the same column, or the same 3x3 box.  The source's box scan
over `br..br+3 x bc..bc+3` with `br = row/3*3` is exactly the cells whose
row-block and column-block match. -/
def is_valid (g : Grid) (row col : Fin 9) (d : Nat) : Bool :=
  decide (∀ c : Fin 9, g row c ≠ d) &&
  decide (∀ r : Fin 9, g r col ≠ d) &&
  decide (∀ r c : Fin 9, r.val / 3 = row.val / 3 → c.val / 3 = col.val / 3 → g r c ≠ d)

/-- Mirrors `find_empty`: the first cell holding `0` in row-major order. -/
def find_empty (g : Grid) : Option (Fin 9 × Fin 9) :=
  (List.finRange 9).findSome? fun r =>
    ((List.finRange 9).find? fun c => g r c == 0).map fun c => (r, c)

/-- Functional update of one grid cell (the Rust code mutates in place and
restores on failure; trying the updated grid is the same search). -/
def setCellG (g : Grid) (row col : Fin 9) (d : Nat) : Grid :=
  fun r c => if r = row ∧ c = col then d else g r c

/-- Mirrors `solve_grid`: find the first empty cell; if none the grid is
solved; otherwise try digits 1..9 in ascending order, recursing on the first
consistent placement that completes.  The Rust recursion terminates because
each call fills one empty cell; `fuel` makes that measure explicit. -/
def solve_grid : Nat → Grid → Option Grid
  | 0, _ => none
  | fuel + 1, g =>
    match find_empty g with
    | none => some g
    | some (row, col) =>
      (List.range 9).findSome? fun i =>
        if is_valid g row col (i + 1) then solve_grid fuel (setCellG g row col (i + 1)) else none

/-- Mirrors `BacktrackingSudokuSolver::solve`: run `solve_grid` on a copy of
the puzzle.  A 9x9 grid has at most 81 empty cells, so fuel 82 never runs out. -/
def backtrackingSolve (p : Grid) : Option Grid := solve_grid 82 p

/-! ## SAT model (src/solver/sat.rs) -/

/-- A literal of the `rustsat` library: a variable index with a polarity. -/
structure Lit where
  var : Nat
  neg : Bool
deriving DecidableEq, Repr

/-- Negation of a literal (rustsat `!lit`). -/
def Lit.negate (l : Lit) : Lit := ⟨l.var, !l.neg⟩

/-- A clause is a disjunction of literals. -/
abbrev Clause := List Lit

/-- The rustsat `SatInstance`: a fresh-variable counter and a clause list. -/
structure SatInstance where
  nextVar : Nat
  clauses : List Clause
deriving Repr

/-- An empty instance (rustsat `SatInstance::new`). -/
def SatInstance.new : SatInstance := ⟨0, []⟩

/-- Mirrors `instance.new_lit()`: a fresh positive literal on a fresh variable. -/
def SatInstance.new_lit (s : SatInstance) : Lit × SatInstance :=
  (⟨s.nextVar, false⟩, ⟨s.nextVar + 1, s.clauses⟩)

/-- Mirrors `instance.add_clause` (clauses are stored in emission order). -/
def SatInstance.add_clause (s : SatInstance) (c : Clause) : SatInstance :=
  ⟨s.nextVar, s.clauses ++ [c]⟩

/-- Mirrors `instance.add_unit`. -/
def SatInstance.add_unit (s : SatInstance) (l : Lit) : SatInstance := s.add_clause [l]

/-- The SAT model of `sat.rs`: the instance plus the literal map
`literals[row][col][digit-1]`.  Rust calls the first field `instance`,
which is a reserved word here. -/
structure SudokuSat where
  inst : SatInstance
  literals : List (List (List Lit))

/-- Mirrors `SudokuSat::new`: allocate 729 fresh literals in row-major,
digit-ascending order, pushing each onto the nested literal table. -/
def SudokuSat.new : SudokuSat :=
  let start : SatInstance × List (List (List Lit)) := (SatInstance.new, [])
  let built :=
    (List.range 9).foldl (fun acc _row =>
      let rowRes :=
        (List.range 9).foldl (fun acc2 _col =>
          let cellRes :=
            (List.range 9).foldl (fun acc3 _digit =>
              let fresh := acc3.1.new_lit
              (fresh.2, acc3.2 ++ [fresh.1])) (acc2.1, ([] : List Lit))
          (cellRes.1, acc2.2 ++ [cellRes.2])) (acc.1, ([] : List (List Lit)))
      (rowRes.1, acc.2 ++ [rowRes.2])) start
  ⟨built.1, built.2⟩

/-- Indexing `literals[row][col][d0]` where `d0 = digit - 1`; out-of-range
indices (which would panic in Rust) fall back to a default. -/
def litAt (s : SudokuSat) (row col d0 : Nat) : Lit :=
  (((s.literals.getD row []).getD col []).getD d0 ⟨0, false⟩)

/-- Checked variant of `litAt`: `none` exactly when Rust indexing would panic. -/
def litAtChecked (s : SudokuSat) (row col d0 : Nat) : Option Lit :=
  (s.literals[row]?).bind fun a => (a[col]?).bind fun b => b[d0]?

/-- The variable number of the literal for `(row, col, digit-1)` as allocated
by `SudokuSat::new` in canonical scan order. -/
def varOf (row col d0 : Nat) : Nat := 81 * row + 9 * col + d0

/-- The 81 definedness clauses: each cell holds at least one digit.  One
clause per `(row, col)` iteration of the first loop pair of
`add_minimal_sudoku_constraints`, collecting `literals[row][col][d-1]`
for `d` in `1..=9`. -/
def cellClauses (s : SudokuSat) : List Clause :=
  (List.range 9).flatMap fun row =>
    (List.range 9).map fun col =>
      (List.range 9).map fun d0 => litAt s row col d0

/-- Row-uniqueness clauses, one per `(row, digit, col1, col2)` with
`col1 < col2`, in the loop order of the source. -/
def rowClauses (s : SudokuSat) : List Clause :=
  (List.range 9).flatMap fun row =>
    (List.range 9).flatMap fun d0 =>
      (List.range 9).flatMap fun col1 =>
        (List.range' (col1 + 1) (8 - col1)).map fun col2 =>
          [(litAt s row col1 d0).negate, (litAt s row col2 d0).negate]

/-- Column-uniqueness clauses, symmetric to the rows. -/
def colClauses (s : SudokuSat) : List Clause :=
  (List.range 9).flatMap fun col =>
    (List.range 9).flatMap fun d0 =>
      (List.range 9).flatMap fun row1 =>
        (List.range' (row1 + 1) (8 - row1)).map fun row2 =>
          [(litAt s row1 col d0).negate, (litAt s row2 col d0).negate]

/-- The nine cells of the box at block coordinates `(box_row, box_col)`, in
the push order of the source. -/
def boxCells (box_row box_col : Nat) : List (Nat × Nat) :=
  (List.range 3).flatMap fun r =>
    (List.range 3).map fun c => (box_row * 3 + r, box_col * 3 + c)

/-- Box-uniqueness clauses: for each digit and box, one clause per index pair
`i < j` into the box's cell list. -/
def boxClauses (s : SudokuSat) : List Clause :=
  (List.range 9).flatMap fun d0 =>
    (List.range 3).flatMap fun box_row =>
      (List.range 3).flatMap fun box_col =>
        let cells := boxCells box_row box_col
        (List.range cells.length).flatMap fun i =>
          (List.range' (i + 1) (cells.length - (i + 1))).map fun j =>
            [(litAt s (cells.getD i (0, 0)).1 (cells.getD i (0, 0)).2 d0).negate,
             (litAt s (cells.getD j (0, 0)).1 (cells.getD j (0, 0)).2 d0).negate]

/-- Mirrors `add_minimal_sudoku_constraints`: the four clause families are
emitted in source order, one clause per innermost loop iteration. -/
def add_minimal_sudoku_constraints (s : SudokuSat) : SudokuSat :=
  { s with inst := ⟨s.inst.nextVar,
      s.inst.clauses ++ cellClauses s ++ rowClauses s ++ colClauses s ++ boxClauses s⟩ }

/-- Mirrors `set_cell`: add the unit clause `literals[row][col][digit-1]`. -/
def set_cell (s : SudokuSat) (row col digit : Nat) : SudokuSat :=
  { s with inst := s.inst.add_unit (litAt s row col (digit - 1)) }

/-- The unit clauses emitted by `add_puzzle_clues`, in cell scan order. -/
def clueClauses (s : SudokuSat) (p : Grid) : List Clause :=
  (List.finRange 9).flatMap fun row =>
    (List.finRange 9).flatMap fun col =>
      if p row col ≠ 0 then [[litAt s row.val col.val (p row col - 1)]] else []

/-- Mirrors `add_puzzle_clues`: one `set_cell` per nonzero puzzle entry, in
row-major order. -/
def add_puzzle_clues (s : SudokuSat) (p : Grid) : SudokuSat :=
  { s with inst := ⟨s.inst.nextVar, s.inst.clauses ++ clueClauses s p⟩ }

/-- Checked variant of the clue loop: `none` exactly when some literal-map
index of a `set_cell` call would be out of bounds (a Rust panic). -/
def addPuzzleCluesChecked (s : SudokuSat) (p : Grid) : Option (List Clause) :=
  (List.finRange 9).foldlM (fun acc row =>
    (List.finRange 9).foldlM (fun acc2 col =>
      if p row col ≠ 0 then
        (litAtChecked s row.val col.val (p row col - 1)).map fun l => acc2 ++ [[l]]
      else
        some acc2) acc) []

/-- The SAT model built by `SatSudokuSolver::solve` before calling the oracle:
fresh literals, the minimal constraints, then the puzzle's clue units. -/
def sudokuModel (p : Grid) : SudokuSat :=
  add_puzzle_clues (add_minimal_sudoku_constraints SudokuSat.new) p

/-- The CNF handed to the oracle for puzzle `p`. -/
def sudokuCnf (p : Grid) : List Clause := (sudokuModel p).inst.clauses

/-- A total truth assignment, as produced by `full_solution` (only `True`
matters downstream; `False` and `Unassigned` behave alike there). -/
abbrev Assignment := Nat → Bool

/-- Truth of a literal under an assignment. -/
def Lit.eval (a : Assignment) (l : Lit) : Bool := if l.neg then !(a l.var) else a l.var

/-- A clause is satisfied when some literal in it is true. -/
def clauseSat (a : Assignment) (c : Clause) : Prop := ∃ l ∈ c, l.eval a = true

/-- An assignment satisfies a CNF when it satisfies every clause. -/
def cnfSat (a : Assignment) (cnf : List Clause) : Prop := ∀ c ∈ cnf, clauseSat a c

/-- Mirrors `extract_grid`: for each cell take the first digit in `1..=9`
whose literal is true under the assignment, else leave the cell 0. -/
def extract_grid (s : SudokuSat) (sol : Assignment) : Grid := fun r c =>
  match (List.range 9).find? (fun d0 => sol (litAt s r.val c.val d0).var) with
  | some d0 => d0 + 1
  | none => 0

/-- Modelled from the spec: the external CaDiCaL oracle consumed by
`SatSudokuSolver::solve` is not part of this repository.  Following the
oracle contract of the spec, a `Sat` verdict comes with a genuinely
satisfying total assignment and is produced exactly when the CNF is
satisfiable, any other verdict maps to `None`, and `solve` decodes a `Sat`
verdict with `extract_grid`.  This relation states which results `solve`
may return on puzzle `p` under that contract. -/
def SatSolveResult (p : Grid) (res : Option Grid) : Prop :=
  (∃ a : Assignment, cnfSat a (sudokuCnf p) ∧ res = some (extract_grid (sudokuModel p) a)) ∨
  ((¬ ∃ a : Assignment, cnfSat a (sudokuCnf p)) ∧ res = none)

/-! ## Solver factory (src/solver/mod.rs) -/

/-- The strategy tag of the factory.  In the source the variants
`Backtracking` and `ExactCover` are commented out, so `Sat` is the only
constructor. -/
inductive SolverKind where
  | Sat : SolverKind

/-- The solver sum type of the source; again only the `Sat` arm exists,
the other two are commented out. -/
inductive Solver where
  | Sat : Solver
deriving DecidableEq

/-- Mirrors `make_solver`. -/
def make_solver (kind : SolverKind) : Solver :=
  match kind with
  | SolverKind.Sat => Solver.Sat

/-- True on the solver variant wrapping `BacktrackingSudokuSolver`; no such
variant exists in the source's `Solver` enum. -/
def Solver.isBacktracking : Solver → Bool
  | Solver.Sat => false

/-! ## Generic lemmas about ordered scans -/

theorem findSome?_sorted_first {α β : Type} {lt : α → α → Prop} {f : α → Option β} :
    ∀ (l : List α), l.Pairwise lt → ∀ x y, x ∈ l → f x = some y →
      (∀ z ∈ l, lt z x → f z = none) → l.findSome? f = some y := by
  intro l
  induction l with
  | nil => intro _ x y hx; cases hx
  | cons a t ih =>
    intro hp x y hx hfx hnone
    rcases List.pairwise_cons.mp hp with ⟨ha, ht⟩
    rcases List.mem_cons.mp hx with rfl | hxt
    · simp [List.findSome?_cons, hfx]
    · have hfa : f a = none := hnone a (List.mem_cons_self a t) (ha x hxt)
      simp only [List.findSome?_cons, hfa]
      exact ih ht x y hxt hfx (fun z hz hltz => hnone z (List.mem_cons_of_mem a hz) hltz)

theorem findSome?_sorted_elim {α β : Type} {lt : α → α → Prop} {f : α → Option β}
    (hasym : ∀ x y, lt x y → ¬ lt y x) :
    ∀ (l : List α), l.Pairwise lt → ∀ y, l.findSome? f = some y →
      ∃ x ∈ l, f x = some y ∧ ∀ z ∈ l, lt z x → f z = none := by
  intro l
  induction l with
  | nil => intro _ y h; simp [List.findSome?] at h
  | cons a t ih =>
    intro hp y h
    rcases List.pairwise_cons.mp hp with ⟨ha, ht⟩
    rcases hfa : f a with _ | b
    · simp only [List.findSome?_cons, hfa] at h
      rcases ih ht y h with ⟨x, hxt, hfx, hmin⟩
      refine ⟨x, List.mem_cons_of_mem a hxt, hfx, ?_⟩
      intro z hz hltz
      rcases List.mem_cons.mp hz with rfl | hzt
      · exact hfa
      · exact hmin z hzt hltz
    · simp only [List.findSome?_cons, hfa] at h
      refine ⟨a, List.mem_cons_self a t, by rw [hfa, h], ?_⟩
      intro z hz hltz
      rcases List.mem_cons.mp hz with rfl | hzt
      · exact absurd hltz (hasym z z hltz)
      · exact absurd hltz (hasym a z (ha z hzt))

theorem find?_sorted_elim {α : Type} {lt : α → α → Prop} {p : α → Bool}
    (hasym : ∀ x y, lt x y → ¬ lt y x) :
    ∀ (l : List α), l.Pairwise lt → ∀ x, l.find? p = some x →
      x ∈ l ∧ p x = true ∧ ∀ z ∈ l, lt z x → p z = false := by
  intro l
  induction l with
  | nil => intro _ x h; simp [List.find?] at h
  | cons a t ih =>
    intro hp x h
    rcases List.pairwise_cons.mp hp with ⟨ha, ht⟩
    rcases hpa : p a with _ | _
    · rw [List.find?_cons_of_neg _ (by simp [hpa])] at h
      rcases ih ht x h with ⟨hxt, hpx, hmin⟩
      refine ⟨List.mem_cons_of_mem a hxt, hpx, ?_⟩
      intro z hz hltz
      rcases List.mem_cons.mp hz with rfl | hzt
      · exact hpa
      · exact hmin z hzt hltz
    · rw [List.find?_cons_of_pos _ hpa] at h
      obtain rfl : a = x := by injection h
      refine ⟨List.mem_cons_self a t, hpa, ?_⟩
      intro z hz hltz
      rcases List.mem_cons.mp hz with rfl | hzt
      · exact absurd hltz (hasym z z hltz)
      · exact absurd hltz (hasym a z (ha z hzt))

theorem exists_of_findSome?_eq_some {α β : Type} {f : α → Option β} :
    ∀ {l : List α} {y : β}, l.findSome? f = some y → ∃ x ∈ l, f x = some y := by
  intro l
  induction l with
  | nil => intro y h; simp [List.findSome?] at h
  | cons a t ih =>
    intro y h
    rcases hfa : f a with _ | b
    · simp only [List.findSome?_cons, hfa] at h
      rcases ih h with ⟨x, hxt, hfx⟩
      exact ⟨x, List.mem_cons_of_mem a hxt, hfx⟩
    · simp only [List.findSome?_cons, hfa] at h
      exact ⟨a, List.mem_cons_self a t, by rw [hfa, h]⟩

/-! ## Properties of the backtracking solver -/

/-- Cell `(r, c)` comes strictly before `(rr, cc)` in row-major order. -/
def rmBefore (r c rr cc : Fin 9) : Prop := r < rr ∨ (r = rr ∧ c < cc)

theorem finRange9_pairwise : (List.finRange 9).Pairwise (fun a b : Fin 9 => a < b) := by decide

theorem range9_pairwise : (List.range 9).Pairwise (fun a b : Nat => a < b) := by decide

theorem fin_lt_asymm : ∀ x y : Fin 9, x < y → ¬ y < x := fun _ _ h h2 => absurd (h.trans h2) (lt_irrefl _)

theorem nat_lt_asymm : ∀ x y : Nat, x < y → ¬ y < x := fun _ _ h h2 => absurd (h.trans h2) (lt_irrefl _)

theorem find_empty_none {g : Grid} (h : find_empty g = none) : ∀ r c : Fin 9, g r c ≠ 0 := by
  intro r c
  have hall := List.findSome?_eq_none_iff.mp h r (by simp [List.mem_finRange])
  have hfind : (List.finRange 9).find? (fun c => g r c == 0) = none := by
    rcases hf : (List.finRange 9).find? (fun c => g r c == 0) with _ | c0
    · rfl
    · rw [hf] at hall; simp at hall
  have := List.find?_eq_none.mp hfind c (by simp [List.mem_finRange])
  simpa using this

theorem find_empty_some {g : Grid} {r c : Fin 9} (h : find_empty g = some (r, c)) :
    g r c = 0 ∧ ∀ rr cc : Fin 9, rmBefore rr cc r c → g rr cc ≠ 0 := by
  rcases findSome?_sorted_elim fin_lt_asymm (List.finRange 9) finRange9_pairwise _ h with
    ⟨r0, _, hfr0, hrows⟩
  rcases Option.map_eq_some'.mp hfr0 with ⟨c0, hc0, hpair⟩
  injection hpair with h1 h2
  subst h1
  subst h2
  rcases find?_sorted_elim fin_lt_asymm (List.finRange 9) finRange9_pairwise _ hc0 with
    ⟨_, hpc, hcols⟩
  refine ⟨by simpa using hpc, ?_⟩
  intro rr cc hbefore
  rcases hbefore with hlt | ⟨rfl, hlt⟩
  · have hnone := hrows rr (by simp [List.mem_finRange]) hlt
    have : (List.finRange 9).find? (fun c2 => g rr c2 == 0) = none := by
      rcases hf : (List.finRange 9).find? (fun c2 => g rr c2 == 0) with _ | c2
      · rfl
      · rw [hf] at hnone; simp at hnone
    have := List.find?_eq_none.mp this cc (by simp [List.mem_finRange])
    simpa using this
  · have := hcols cc (by simp [List.mem_finRange]) hlt
    simpa using this

theorem is_valid_iff {g : Grid} {row col : Fin 9} {d : Nat} :
    is_valid g row col d = true ↔
      (∀ c : Fin 9, g row c ≠ d) ∧ (∀ r : Fin 9, g r col ≠ d) ∧
      (∀ r c : Fin 9, sameBox r c row col → g r c ≠ d) := by
  unfold is_valid sameBox
  simp only [Bool.and_eq_true, decide_eq_true_eq]
  tauto

theorem is_valid_unit {g : Grid} {row col : Fin 9} {d : Nat} (h : is_valid g row col d = true) :
    ∀ rr cc : Fin 9, sameUnit row col rr cc → g rr cc ≠ d := by
  rcases is_valid_iff.mp h with ⟨hrow, hcol, hbox⟩
  intro rr cc hunit
  rcases hunit with rfl | rfl | hbox2
  · exact hrow cc
  · exact hcol rr
  · exact hbox rr cc ⟨hbox2.1.symm, hbox2.2.symm⟩

theorem setCellG_same {g : Grid} {row col : Fin 9} {d : Nat} : setCellG g row col d row col = d := by
  simp [setCellG]

theorem setCellG_other {g : Grid} {row col r c : Fin 9} {d : Nat} (h : ¬(r = row ∧ c = col)) :
    setCellG g row col d r c = g r c := by
  simp [setCellG, h]

theorem sameUnit_symm {r c rr cc : Fin 9} (h : sameUnit r c rr cc) : sameUnit rr cc r c := by
  rcases h with rfl | rfl | ⟨h1, h2⟩
  · exact Or.inl rfl
  · exact Or.inr (Or.inl rfl)
  · exact Or.inr (Or.inr ⟨h1.symm, h2.symm⟩)

/-- Soundness of `solve_grid`: any returned grid leaves the nonzero cells of
the input untouched, is zero-free, fills the empty cells with digits 1..9,
and creates no conflict involving a cell that was empty in the input. -/
theorem solve_grid_sound : ∀ (fuel : Nat) (g g2 : Grid), solve_grid fuel g = some g2 →
    (∀ r c : Fin 9, g r c ≠ 0 → g2 r c = g r c) ∧
    (∀ r c : Fin 9, g2 r c ≠ 0) ∧
    (∀ r c : Fin 9, g r c = 0 → 1 ≤ g2 r c ∧ g2 r c ≤ 9) ∧
    (∀ r c rr cc : Fin 9, sameUnit r c rr cc → ¬(r = rr ∧ c = cc) → g r c = 0 →
      g2 r c ≠ g2 rr cc) := by
  intro fuel
  induction fuel with
  | zero => intro g g2 h; simp [solve_grid] at h
  | succ fuel ih =>
    intro g g2 h
    cases he : find_empty g with
    | none =>
      simp only [solve_grid, he] at h
      obtain rfl : g = g2 := Option.some.inj h
      have hnz := find_empty_none he
      refine ⟨fun _ _ _ => rfl, hnz, ?_, ?_⟩
      · intro r c h0; exact absurd h0 (hnz r c)
      · intro r c _ _ _ _ h0; exact absurd h0 (hnz r c)
    | some rc =>
      obtain ⟨row, col⟩ := rc
      simp only [solve_grid, he] at h
      rcases exists_of_findSome?_eq_some h with ⟨i, hiRange, hbody⟩
      have hi9 : i < 9 := List.mem_range.mp hiRange
      cases hv : is_valid g row col (i + 1) with
      | false => rw [hv] at hbody; simp at hbody
      | true =>
        rw [hv, if_pos rfl] at hbody
        obtain ⟨IH1, IH2, IH3, IH4⟩ := ih (setCellG g row col (i + 1)) g2 hbody
        have hg0 : g row col = 0 := (find_empty_some he).1
        have hcenter : g2 row col = i + 1 := by
          have h1 : setCellG g row col (i + 1) row col = i + 1 := setCellG_same
          rw [IH1 row col (by rw [h1]; omega), h1]
        refine ⟨?_, IH2, ?_, ?_⟩
        · intro r c hne
          have hne_cell : ¬(r = row ∧ c = col) := by
            rintro ⟨rfl, rfl⟩; exact hne hg0
          rw [IH1 r c (by rw [setCellG_other hne_cell]; exact hne), setCellG_other hne_cell]
        · intro r c h0
          by_cases hcell : r = row ∧ c = col
          · obtain ⟨hr, hc⟩ := hcell
            rw [hr, hc, hcenter]; omega
          · have := IH3 r c (by rw [setCellG_other hcell]; exact h0)
            exact this
        · intro r c rr cc hunit hdist h0
          by_cases hcell : r = row ∧ c = col
          · obtain ⟨hr, hc⟩ := hcell
            rw [hr, hc] at hunit hdist h0 ⊢
            have hcell2 : ¬(rr = row ∧ cc = col) := by
              rintro ⟨rfl, rfl⟩; exact hdist ⟨rfl, rfl⟩
            by_cases hz : g rr cc = 0
            · have := IH4 rr cc row col (sameUnit_symm hunit)
                (by rintro ⟨rfl, rfl⟩; exact hcell2 ⟨rfl, rfl⟩)
                (by rw [setCellG_other hcell2]; exact hz)
              exact fun e => this e.symm
            · have hval : g2 rr cc = g rr cc := by
                rw [IH1 rr cc (by rw [setCellG_other hcell2]; exact hz), setCellG_other hcell2]
              have hnv : g rr cc ≠ i + 1 := is_valid_unit hv rr cc hunit
              rw [hcenter, hval]
              exact fun e => hnv e.symm
          · have := IH4 r c rr cc hunit hdist (by rw [setCellG_other hcell]; exact h0)
            exact this

/-- Corollary of soundness: on a consistent well-formed input, any grid the
search returns is a completion of the input. -/
theorem solve_grid_completion {fuel : Nat} {g g2 : Grid} (hc : consistentGrid g)
    (hw : wellFormed g) (h : solve_grid fuel g = some g2) : completionOf g g2 := by
  obtain ⟨h1, h2, h3, h4⟩ := solve_grid_sound fuel g g2 h
  refine ⟨?_, ?_, h2, h1⟩
  · intro r c
    by_cases h0 : g r c = 0
    · exact (h3 r c h0).2
    · rw [h1 r c h0]; exact hw r c
  · intro r c rr cc hunit hdist hnz
    have hdist2 : ¬(r = rr ∧ c = cc) := by
      rintro ⟨rfl, rfl⟩; rcases hdist with h | h <;> exact h rfl
    by_cases h0 : g r c = 0
    · exact h4 r c rr cc hunit hdist2 h0
    · by_cases h0b : g rr cc = 0
      · have := h4 rr cc r c (sameUnit_symm hunit) (fun e => hdist2 ⟨e.1.symm, e.2.symm⟩) h0b
        exact fun e => this e.symm
      · rw [h1 r c h0, h1 rr cc h0b]
        exact hc r c rr cc hunit hdist h0

/-- Number of empty cells of a grid. -/
def emptyCount (g : Grid) : Nat :=
  (Finset.univ.filter (fun rc : Fin 9 × Fin 9 => g rc.1 rc.2 = 0)).card

theorem emptyCount_le (g : Grid) : emptyCount g ≤ 81 := by
  refine le_trans (Finset.card_filter_le _ _) ?_
  simp [Finset.card_univ]

theorem emptyCount_set_lt {g : Grid} {row col : Fin 9} {d : Nat} (h0 : g row col = 0)
    (hd : d ≠ 0) : emptyCount (setCellG g row col d) < emptyCount g := by
  have hsub : (Finset.univ.filter (fun rc : Fin 9 × Fin 9 => setCellG g row col d rc.1 rc.2 = 0)) ⊆
      (Finset.univ.filter (fun rc : Fin 9 × Fin 9 => g rc.1 rc.2 = 0)).erase (row, col) := by
    intro rc hrc
    rcases Finset.mem_filter.mp hrc with ⟨_, hval⟩
    by_cases hcell : rc.1 = row ∧ rc.2 = col
    · rw [setCellG, if_pos hcell] at hval
      exact absurd hval hd
    · rw [setCellG_other hcell] at hval
      refine Finset.mem_erase.mpr ⟨?_, Finset.mem_filter.mpr ⟨Finset.mem_univ _, hval⟩⟩
      intro e
      exact hcell ⟨by rw [e], by rw [e]⟩
  have hmem : (row, col) ∈ (Finset.univ.filter (fun rc : Fin 9 × Fin 9 => g rc.1 rc.2 = 0)) :=
    Finset.mem_filter.mpr ⟨Finset.mem_univ _, h0⟩
  have hcard := Finset.card_le_card hsub
  rw [Finset.card_erase_of_mem hmem] at hcard
  have hpos : 0 < (Finset.univ.filter (fun rc : Fin 9 × Fin 9 => g rc.1 rc.2 = 0)).card :=
    Finset.card_pos.mpr ⟨(row, col), hmem⟩
  unfold emptyCount
  omega

/-- Grid `g1` is row-major, digit-ascending lexicographically smaller than
`g2`: the grids agree on every cell before some cell, where `g1` is smaller. -/
def gridLt (g1 g2 : Grid) : Prop :=
  ∃ r c : Fin 9, (∀ rr cc : Fin 9, rmBefore rr cc r c → g1 rr cc = g2 rr cc) ∧ g1 r c < g2 r c

/-- Lexicographic less-or-equal on grids. -/
def gridLe (g1 g2 : Grid) : Prop := g1 = g2 ∨ gridLt g1 g2

/-- A completion assigns to each empty cell a digit that is valid there. -/
theorem is_valid_of_completion {g s : Grid} (hcomp : completionOf g s) {row col : Fin 9}
    (h0 : g row col = 0) : is_valid g row col (s row col) = true := by
  obtain ⟨hw, hc, hnz, hag⟩ := hcomp
  have key : ∀ rr cc : Fin 9, sameUnit row col rr cc → g rr cc ≠ s row col := by
    intro rr cc hunit he
    have hgz : g rr cc ≠ 0 := by rw [he]; exact hnz row col
    have hs : s rr cc = g rr cc := hag rr cc hgz
    have hne : ¬(row = rr ∧ col = cc) := by
      rintro ⟨rfl, rfl⟩; exact hgz h0
    have hdist : row ≠ rr ∨ col ≠ cc := by
      by_cases h : row = rr
      · exact Or.inr (fun e => hne ⟨h, e⟩)
      · exact Or.inl h
    exact hc row col rr cc hunit hdist (hnz row col) (by rw [hs, he])
  rw [is_valid_iff]
  refine ⟨fun c => key row c (Or.inl rfl), fun r => key r col (Or.inr (Or.inl rfl)), ?_⟩
  intro r c hbox
  exact key r c (Or.inr (Or.inr ⟨hbox.1.symm, hbox.2.symm⟩))

/-- A completion assigning `d` to the empty cell `(row, col)` is a completion
of the grid with `d` placed there. -/
theorem completion_setCell {g s : Grid} {row col : Fin 9} (hcomp : completionOf g s)
    (hd : s row col = d) : completionOf (setCellG g row col d) s := by
  obtain ⟨hw, hc, hnz, hag⟩ := hcomp
  refine ⟨hw, hc, hnz, ?_⟩
  intro r c hrc
  by_cases hcell : r = row ∧ c = col
  · obtain ⟨rfl, rfl⟩ := hcell
    rw [setCellG_same, hd]
  · rw [setCellG_other hcell] at hrc ⊢
    exact hag r c hrc

/-- Conversely, a completion of the filled grid also completes the original
grid when the filled cell was empty. -/
theorem completion_unset {g s : Grid} {row col : Fin 9} {d : Nat}
    (hcomp : completionOf (setCellG g row col d) s) (h0 : g row col = 0) : completionOf g s := by
  obtain ⟨hw, hc, hnz, hag⟩ := hcomp
  refine ⟨hw, hc, hnz, ?_⟩
  intro r c hrc
  have hcell : ¬(r = row ∧ c = col) := by
    rintro ⟨rfl, rfl⟩; exact hrc h0
  have := hag r c (by rw [setCellG_other hcell]; exact hrc)
  rw [setCellG_other hcell] at this
  exact this

/-- Placing a valid digit in an empty cell preserves consistency. -/
theorem consistent_setCell {g : Grid} {row col : Fin 9} {d : Nat} (hc : consistentGrid g)
    (hv : is_valid g row col d = true) (h0 : g row col = 0) :
    consistentGrid (setCellG g row col d) := by
  intro r c rr cc hunit hdist hnz
  have hdist2 : ¬(r = rr ∧ c = cc) := by
    rintro ⟨rfl, rfl⟩; rcases hdist with h | h <;> exact h rfl
  by_cases hcell : r = row ∧ c = col
  · obtain ⟨hr2, hc2⟩ := hcell
    rw [hr2, hc2] at hdist2 hnz ⊢
    rw [hr2, hc2] at hunit
    have hcell2 : ¬(rr = row ∧ cc = col) := by
      rintro ⟨rfl, rfl⟩; exact hdist2 ⟨rfl, rfl⟩
    rw [setCellG_same, setCellG_other hcell2]
    exact fun e => is_valid_unit hv rr cc hunit e.symm
  · rw [setCellG_other hcell] at hnz ⊢
    by_cases hcell2 : rr = row ∧ cc = col
    · obtain ⟨hr2, hc2⟩ := hcell2
      rw [hr2, hc2, setCellG_same]
      have hunit2 : sameUnit row col r c := by
        rw [← hr2, ← hc2]; exact sameUnit_symm hunit
      exact is_valid_unit hv r c hunit2
    · rw [setCellG_other hcell2]
      exact hc r c rr cc hunit hdist hnz

/-- Placing a digit at most 9 preserves well-formedness. -/
theorem wellFormed_setCell {g : Grid} {row col : Fin 9} {d : Nat} (hw : wellFormed g)
    (hd : d ≤ 9) : wellFormed (setCellG g row col d) := by
  intro r c
  by_cases hcell : r = row ∧ c = col
  · rw [setCellG, if_pos hcell]; exact hd
  · rw [setCellG_other hcell]; exact hw r c

/-- Completeness and minimality of the backtracking search: on a consistent,
well-formed puzzle admitting a completion, `solve_grid` succeeds and returns
the row-major, digit-ascending lexicographically smallest completion. -/
theorem solve_grid_complete : ∀ (fuel : Nat) (g : Grid), emptyCount g < fuel →
    consistentGrid g → wellFormed g → ∀ s, completionOf g s →
    ∃ g2, solve_grid fuel g = some g2 ∧ completionOf g g2 ∧
      ∀ t, completionOf g t → gridLe g2 t := by
  intro fuel
  induction fuel with
  | zero => intro g hfuel; exact absurd hfuel (Nat.not_lt_zero _)
  | succ fuel ih =>
    intro g hfuel hc hw s hs
    classical
    cases he : find_empty g with
    | none =>
      refine ⟨g, by simp only [solve_grid, he], ?_, ?_⟩
      · exact ⟨hw, hc, find_empty_none he, fun _ _ _ => rfl⟩
      · intro t ht
        left
        funext r c
        exact (ht.2.2.2 r c (find_empty_none he r c)).symm
    | some rc =>
      obtain ⟨row, col⟩ := rc
      obtain ⟨hg0, hfirst⟩ := find_empty_some he
      have hex : ∃ d, is_valid g row col d = true ∧
          ∃ t, completionOf (setCellG g row col d) t :=
        ⟨s row col, is_valid_of_completion hs hg0, s, completion_setCell hs rfl⟩
      set dstar := Nat.find hex with hdstar
      have hPd : is_valid g row col dstar = true ∧
          ∃ t, completionOf (setCellG g row col dstar) t := Nat.find_spec hex
      have hmin : ∀ m, m < dstar → ¬(is_valid g row col m = true ∧
          ∃ t, completionOf (setCellG g row col m) t) := fun m hm => Nat.find_min hex hm
      have hd0 : dstar ≠ 0 := by
        intro h
        have hval := hPd.1
        rw [h] at hval
        exact (is_valid_iff.mp hval).1 col hg0
      have hd9 : dstar ≤ 9 := by
        have h1 : dstar ≤ s row col :=
          Nat.find_min' hex ⟨is_valid_of_completion hs hg0, s, completion_setCell hs rfl⟩
        have h2 : s row col ≤ 9 := hs.1 row col
        omega
      obtain ⟨t0, ht0⟩ := hPd.2
      have hvstar := hPd.1
      have hcons1 : consistentGrid (setCellG g row col dstar) := consistent_setCell hc hvstar hg0
      have hwf1 : wellFormed (setCellG g row col dstar) := wellFormed_setCell hw hd9
      have hcount1 : emptyCount (setCellG g row col dstar) < fuel := by
        have := emptyCount_set_lt hg0 hd0
        omega
      obtain ⟨g2, heq2, hcomp2, hmin2⟩ := ih (setCellG g row col dstar) hcount1 hcons1 hwf1 t0 ht0
      have histar : dstar - 1 + 1 = dstar := by omega
      have hscan : solve_grid (fuel + 1) g = some g2 := by
        simp only [solve_grid, he]
        apply findSome?_sorted_first (List.range 9) range9_pairwise (dstar - 1) g2
        · exact List.mem_range.mpr (by omega)
        · rw [histar, hvstar, if_pos rfl]
          exact heq2
        · intro z hz hltz
          have hz9 : z < 9 := List.mem_range.mp hz
          have hzd : z + 1 < dstar := by omega
          by_cases hvz : is_valid g row col (z + 1) = true
          · rw [hvz, if_pos rfl]
            rcases hsz : solve_grid fuel (setCellG g row col (z + 1)) with _ | t2
            · rfl
            · exfalso
              have hconsz : consistentGrid (setCellG g row col (z + 1)) :=
                consistent_setCell hc hvz hg0
              have hwfz : wellFormed (setCellG g row col (z + 1)) :=
                wellFormed_setCell hw (by omega)
              have hcompz := solve_grid_completion hconsz hwfz hsz
              exact hmin (z + 1) hzd ⟨hvz, t2, hcompz⟩
          · simp [hvz]
      refine ⟨g2, hscan, completion_unset hcomp2 hg0, ?_⟩
      intro t ht
      have hvt := is_valid_of_completion ht hg0
      have hPt : is_valid g row col (t row col) = true ∧
          ∃ u, completionOf (setCellG g row col (t row col)) u :=
        ⟨hvt, t, completion_setCell ht rfl⟩
      have hle : dstar ≤ t row col := Nat.find_min' hex hPt
      by_cases heqd : t row col = dstar
      · have h2 : completionOf (setCellG g row col dstar) t := by
          rw [← heqd]
          exact completion_setCell ht rfl
        exact hmin2 t h2
      · have hlt : dstar < t row col := lt_of_le_of_ne hle (fun e => heqd e.symm)
        right
        refine ⟨row, col, ?_, ?_⟩
        · intro rr cc hbef
          have hne := hfirst rr cc hbef
          have h1 : g2 rr cc = g rr cc := (completion_unset hcomp2 hg0).2.2.2 rr cc hne
          have h2 : t rr cc = g rr cc := ht.2.2.2 rr cc hne
          rw [h1, h2]
        · have hg2v : g2 row col = dstar := by
            have h3 := hcomp2.2.2.2 row col (by rw [setCellG_same]; exact hd0)
            rw [setCellG_same] at h3
            exact h3
          rw [hg2v]
          exact hlt

/-! ## The literal map of `SudokuSat::new` -/

set_option maxRecDepth 40000 in
theorem litAt_new_fin : ∀ r c d0 : Fin 9,
    litAt SudokuSat.new r.val c.val d0.val = ⟨varOf r.val c.val d0.val, false⟩ := by decide

theorem litAt_new {r c d0 : Nat} (hr : r < 9) (hc : c < 9) (hd : d0 < 9) :
    litAt SudokuSat.new r c d0 = ⟨varOf r c d0, false⟩ :=
  litAt_new_fin ⟨r, hr⟩ ⟨c, hc⟩ ⟨d0, hd⟩

theorem add_minimal_literals (s : SudokuSat) :
    (add_minimal_sudoku_constraints s).literals = s.literals := rfl

theorem add_clues_literals (s : SudokuSat) (p : Grid) :
    (add_puzzle_clues s p).literals = s.literals := rfl

set_option maxRecDepth 1000000 in
theorem sudokuModel_litAt (p : Grid) (r c d0 : Nat) :
    litAt (sudokuModel p) r c d0 = litAt SudokuSat.new r c d0 := rfl

set_option maxRecDepth 1000000 in
theorem sudokuCnf_eq (p : Grid) : sudokuCnf p =
    cellClauses SudokuSat.new ++ rowClauses SudokuSat.new ++ colClauses SudokuSat.new ++
    boxClauses SudokuSat.new ++ clueClauses SudokuSat.new p := rfl

/-! ## Semantic characterisation of the emitted clauses -/

/-- The abstract content of the CNF emitted for puzzle `p`: definedness of
every cell, row, column and box uniqueness of every digit, and truth of every
clue literal. -/
def GoodAssignment (p : Grid) (a : Assignment) : Prop :=
  (∀ r c : Fin 9, ∃ d : Fin 9, a (varOf r.val c.val d.val) = true) ∧
  (∀ r d c1 c2 : Fin 9, c1 ≠ c2 →
    ¬(a (varOf r.val c1.val d.val) = true ∧ a (varOf r.val c2.val d.val) = true)) ∧
  (∀ c d r1 r2 : Fin 9, r1 ≠ r2 →
    ¬(a (varOf r1.val c.val d.val) = true ∧ a (varOf r2.val c.val d.val) = true)) ∧
  (∀ d r1 c1 r2 c2 : Fin 9, sameBox r1 c1 r2 c2 → ¬(r1 = r2 ∧ c1 = c2) →
    ¬(a (varOf r1.val c1.val d.val) = true ∧ a (varOf r2.val c2.val d.val) = true)) ∧
  (∀ r c : Fin 9, p r c ≠ 0 → a (varOf r.val c.val (p r c - 1)) = true)

theorem mem_cellClauses (r c : Fin 9) :
    ((List.range 9).map fun d0 => litAt SudokuSat.new r.val c.val d0) ∈
      cellClauses SudokuSat.new := by
  unfold cellClauses
  exact List.mem_flatMap.mpr ⟨r.val, List.mem_range.mpr r.isLt,
    List.mem_map.mpr ⟨c.val, List.mem_range.mpr c.isLt, rfl⟩⟩

theorem mem_range'_iff {m s n : Nat} : m ∈ List.range' s n ↔ s ≤ m ∧ m < s + n := by
  rw [List.mem_range']
  constructor
  · rintro ⟨i, hi, rfl⟩; omega
  · intro ⟨h1, h2⟩; exact ⟨m - s, by omega, by omega⟩

theorem mem_rowClauses {r d c1 c2 : Fin 9} (h : c1.val < c2.val) :
    [(litAt SudokuSat.new r.val c1.val d.val).negate,
     (litAt SudokuSat.new r.val c2.val d.val).negate] ∈ rowClauses SudokuSat.new := by
  unfold rowClauses
  refine List.mem_flatMap.mpr ⟨r.val, List.mem_range.mpr r.isLt,
    List.mem_flatMap.mpr ⟨d.val, List.mem_range.mpr d.isLt,
    List.mem_flatMap.mpr ⟨c1.val, List.mem_range.mpr c1.isLt,
    List.mem_map.mpr ⟨c2.val, ?_, rfl⟩⟩⟩⟩
  exact mem_range'_iff.mpr ⟨by omega, by have := c2.isLt; omega⟩

theorem mem_colClauses {c d r1 r2 : Fin 9} (h : r1.val < r2.val) :
    [(litAt SudokuSat.new r1.val c.val d.val).negate,
     (litAt SudokuSat.new r2.val c.val d.val).negate] ∈ colClauses SudokuSat.new := by
  unfold colClauses
  refine List.mem_flatMap.mpr ⟨c.val, List.mem_range.mpr c.isLt,
    List.mem_flatMap.mpr ⟨d.val, List.mem_range.mpr d.isLt,
    List.mem_flatMap.mpr ⟨r1.val, List.mem_range.mpr r1.isLt,
    List.mem_map.mpr ⟨r2.val, ?_, rfl⟩⟩⟩⟩
  exact mem_range'_iff.mpr ⟨by omega, by have := r2.isLt; omega⟩

theorem boxCells_length (br bc : Nat) : (boxCells br bc).length = 9 := rfl

theorem boxCells_getD {br bc k : Nat} (hk : k < 9) :
    (boxCells br bc).getD k (0, 0) = (br * 3 + k / 3, bc * 3 + k % 3) := by
  interval_cases k <;> rfl

theorem mem_boxClauses_raw {d0 br bc i j : Nat} (hd : d0 < 9) (hbr : br < 3) (hbc : bc < 3)
    (hij : i < j) (hj : j < 9) :
    [(litAt SudokuSat.new ((boxCells br bc).getD i (0, 0)).1
        ((boxCells br bc).getD i (0, 0)).2 d0).negate,
     (litAt SudokuSat.new ((boxCells br bc).getD j (0, 0)).1
        ((boxCells br bc).getD j (0, 0)).2 d0).negate] ∈ boxClauses SudokuSat.new := by
  unfold boxClauses
  refine List.mem_flatMap.mpr ⟨d0, List.mem_range.mpr hd,
    List.mem_flatMap.mpr ⟨br, List.mem_range.mpr hbr,
    List.mem_flatMap.mpr ⟨bc, List.mem_range.mpr hbc,
    List.mem_flatMap.mpr ⟨i, ?_, List.mem_map.mpr ⟨j, ?_, rfl⟩⟩⟩⟩⟩
  · rw [boxCells_length]
    exact List.mem_range.mpr (by omega)
  · rw [boxCells_length]
    exact mem_range'_iff.mpr ⟨by omega, by omega⟩

theorem mem_clueClauses {p : Grid} {r c : Fin 9} (h : p r c ≠ 0) :
    [litAt SudokuSat.new r.val c.val (p r c - 1)] ∈ clueClauses SudokuSat.new p := by
  unfold clueClauses
  refine List.mem_flatMap.mpr ⟨r, List.mem_finRange r,
    List.mem_flatMap.mpr ⟨c, List.mem_finRange c, ?_⟩⟩
  rw [if_pos h]
  exact List.mem_singleton.mpr rfl

theorem eval_new {a : Assignment} {r c d0 : Nat} (hr : r < 9) (hc : c < 9) (hd : d0 < 9) :
    Lit.eval a (litAt SudokuSat.new r c d0) = a (varOf r c d0) := by
  rw [litAt_new hr hc hd]; rfl

theorem eval_negate_new {a : Assignment} {r c d0 : Nat} (hr : r < 9) (hc : c < 9) (hd : d0 < 9) :
    Lit.eval a ((litAt SudokuSat.new r c d0).negate) = !(a (varOf r c d0)) := by
  rw [litAt_new hr hc hd]; rfl

/-- Any satisfying assignment of the emitted CNF meets the abstract
characterisation. -/
theorem cnfSat_good {p : Grid} {a : Assignment} (hw : wellFormed p)
    (h : cnfSat a (sudokuCnf p)) : GoodAssignment p a := by
  have hCell : ∀ C ∈ cellClauses SudokuSat.new, clauseSat a C := fun C hC =>
    h C (by rw [sudokuCnf_eq]; simp only [List.mem_append]; exact Or.inl (Or.inl (Or.inl (Or.inl hC))))
  have hRow : ∀ C ∈ rowClauses SudokuSat.new, clauseSat a C := fun C hC =>
    h C (by rw [sudokuCnf_eq]; simp only [List.mem_append]; exact Or.inl (Or.inl (Or.inl (Or.inr hC))))
  have hCol : ∀ C ∈ colClauses SudokuSat.new, clauseSat a C := fun C hC =>
    h C (by rw [sudokuCnf_eq]; simp only [List.mem_append]; exact Or.inl (Or.inl (Or.inr hC)))
  have hBox : ∀ C ∈ boxClauses SudokuSat.new, clauseSat a C := fun C hC =>
    h C (by rw [sudokuCnf_eq]; simp only [List.mem_append]; exact Or.inl (Or.inr hC))
  have hClue : ∀ C ∈ clueClauses SudokuSat.new p, clauseSat a C := fun C hC =>
    h C (by rw [sudokuCnf_eq]; simp only [List.mem_append]; exact Or.inr hC)
  refine ⟨?_, ?_, ?_, ?_, ?_⟩
  · intro r c
    rcases hCell _ (mem_cellClauses r c) with ⟨l, hl, he⟩
    rcases List.mem_map.mp hl with ⟨d0, hd0, rfl⟩
    have hd9 := List.mem_range.mp hd0
    rw [eval_new r.isLt c.isLt hd9] at he
    exact ⟨⟨d0, hd9⟩, he⟩
  · intro r d c1 c2 hne
    have key : ∀ x y : Fin 9, x.val < y.val → a (varOf r.val x.val d.val) = true →
        a (varOf r.val y.val d.val) = true → False := by
      intro x y hlt h1 h2
      rcases hRow _ (mem_rowClauses (r := r) (d := d) hlt) with ⟨l, hl, he⟩
      rcases List.mem_cons.mp hl with rfl | hl2
      · rw [eval_negate_new r.isLt x.isLt d.isLt, h1] at he; simp at he
      · rcases List.mem_singleton.mp hl2 with rfl
        rw [eval_negate_new r.isLt y.isLt d.isLt, h2] at he; simp at he
    rintro ⟨h1, h2⟩
    rcases lt_trichotomy c1.val c2.val with hlt | heq | hgt
    · exact key c1 c2 hlt h1 h2
    · exact hne (Fin.ext heq)
    · exact key c2 c1 hgt h2 h1
  · intro c d r1 r2 hne
    have key : ∀ x y : Fin 9, x.val < y.val → a (varOf x.val c.val d.val) = true →
        a (varOf y.val c.val d.val) = true → False := by
      intro x y hlt h1 h2
      rcases hCol _ (mem_colClauses (c := c) (d := d) hlt) with ⟨l, hl, he⟩
      rcases List.mem_cons.mp hl with rfl | hl2
      · rw [eval_negate_new x.isLt c.isLt d.isLt, h1] at he; simp at he
      · rcases List.mem_singleton.mp hl2 with rfl
        rw [eval_negate_new y.isLt c.isLt d.isLt, h2] at he; simp at he
    rintro ⟨h1, h2⟩
    rcases lt_trichotomy r1.val r2.val with hlt | heq | hgt
    · exact key r1 r2 hlt h1 h2
    · exact hne (Fin.ext heq)
    · exact key r2 r1 hgt h2 h1
  · intro d r1 c1 r2 c2 hbox hdist
    have key : ∀ x1 y1 x2 y2 : Fin 9, sameBox x1 y1 x2 y2 →
        x1.val % 3 * 3 + y1.val % 3 < x2.val % 3 * 3 + y2.val % 3 →
        a (varOf x1.val y1.val d.val) = true → a (varOf x2.val y2.val d.val) = true → False := by
      intro x1 y1 x2 y2 hb hlt h1 h2
      obtain ⟨hbr, hbc⟩ := hb
      have hx1 := x1.isLt
      have hy1 := y1.isLt
      have hx2 := x2.isLt
      have hy2 := y2.isLt
      have he1 : ((boxCells (x1.val / 3) (y1.val / 3)).getD
          (x1.val % 3 * 3 + y1.val % 3) (0, 0)) = (x1.val, y1.val) := by
        rw [boxCells_getD (by omega)]
        have e1 : x1.val / 3 * 3 + (x1.val % 3 * 3 + y1.val % 3) / 3 = x1.val := by omega
        have e2 : y1.val / 3 * 3 + (x1.val % 3 * 3 + y1.val % 3) % 3 = y1.val := by omega
        rw [e1, e2]
      have he2 : ((boxCells (x1.val / 3) (y1.val / 3)).getD
          (x2.val % 3 * 3 + y2.val % 3) (0, 0)) = (x2.val, y2.val) := by
        rw [boxCells_getD (by omega)]
        have e1 : x1.val / 3 * 3 + (x2.val % 3 * 3 + y2.val % 3) / 3 = x2.val := by omega
        have e2 : y1.val / 3 * 3 + (x2.val % 3 * 3 + y2.val % 3) % 3 = y2.val := by omega
        rw [e1, e2]
      have hm := @mem_boxClauses_raw d.val (x1.val / 3) (y1.val / 3)
        (x1.val % 3 * 3 + y1.val % 3) (x2.val % 3 * 3 + y2.val % 3)
        d.isLt (by omega) (by omega) hlt (by omega)
      rw [he1, he2] at hm
      rcases hBox _ hm with ⟨l, hl, he⟩
      rcases List.mem_cons.mp hl with rfl | hl2
      · rw [eval_negate_new hx1 hy1 d.isLt, h1] at he; simp at he
      · rcases List.mem_singleton.mp hl2 with rfl
        rw [eval_negate_new hx2 hy2 d.isLt, h2] at he; simp at he
    rintro ⟨h1, h2⟩
    rcases lt_trichotomy (r1.val % 3 * 3 + c1.val % 3) (r2.val % 3 * 3 + c2.val % 3) with
      hlt | heq | hgt
    · exact key r1 c1 r2 c2 hbox hlt h1 h2
    · obtain ⟨hbr, hbc⟩ := hbox
      refine hdist ⟨Fin.ext ?_, Fin.ext ?_⟩ <;> omega
    · exact key r2 c2 r1 c1 ⟨hbox.1.symm, hbox.2.symm⟩ hgt h2 h1
  · intro r c h0
    rcases hClue _ (mem_clueClauses h0) with ⟨l, hl, he⟩
    rcases List.mem_singleton.mp hl with rfl
    have hd9 : p r c - 1 < 9 := by
      have := hw r c
      omega
    rw [eval_new r.isLt c.isLt hd9] at he
    exact he

/-- Conversely, the abstract characterisation forces every emitted clause to
be satisfied. -/
theorem good_cnfSat {p : Grid} {a : Assignment} (hw : wellFormed p)
    (hg : GoodAssignment p a) : cnfSat a (sudokuCnf p) := by
  obtain ⟨hDef, hRow, hCol, hBox, hClue⟩ := hg
  intro C hC
  rw [sudokuCnf_eq] at hC
  simp only [List.mem_append] at hC
  rcases hC with ((((hC | hC) | hC) | hC) | hC)
  · unfold cellClauses at hC
    rcases List.mem_flatMap.mp hC with ⟨r, hr, hC2⟩
    rcases List.mem_map.mp hC2 with ⟨c, hc, rfl⟩
    have hr9 := List.mem_range.mp hr
    have hc9 := List.mem_range.mp hc
    rcases hDef ⟨r, hr9⟩ ⟨c, hc9⟩ with ⟨d, hd⟩
    refine ⟨litAt SudokuSat.new r c d.val, List.mem_map.mpr ⟨d.val, List.mem_range.mpr d.isLt, rfl⟩, ?_⟩
    rw [eval_new hr9 hc9 d.isLt]
    exact hd
  · unfold rowClauses at hC
    rcases List.mem_flatMap.mp hC with ⟨r, hr, hC2⟩
    rcases List.mem_flatMap.mp hC2 with ⟨d0, hd0, hC3⟩
    rcases List.mem_flatMap.mp hC3 with ⟨c1, hc1, hC4⟩
    rcases List.mem_map.mp hC4 with ⟨c2, hc2, rfl⟩
    have hr9 := List.mem_range.mp hr
    have hd9 := List.mem_range.mp hd0
    have hc19 := List.mem_range.mp hc1
    obtain ⟨hc2lo, hc2hi⟩ := mem_range'_iff.mp hc2
    have hc29 : c2 < 9 := by omega
    have hne := hRow ⟨r, hr9⟩ ⟨d0, hd9⟩ ⟨c1, hc19⟩ ⟨c2, hc29⟩
      (by intro e; have := Fin.mk.injEq .. ▸ e; simp at this; omega)
    by_cases h1 : a (varOf r c1 d0) = true
    · refine ⟨(litAt SudokuSat.new r c2 d0).negate, by simp, ?_⟩
      rw [eval_negate_new hr9 hc29 hd9]
      have h2 : a (varOf r c2 d0) = false := by
        have h2 : ¬ a (varOf r c2 d0) = true := fun h2 => hne ⟨h1, h2⟩
        rwa [Bool.not_eq_true] at h2
      rw [h2]; rfl
    · refine ⟨(litAt SudokuSat.new r c1 d0).negate, by simp, ?_⟩
      rw [eval_negate_new hr9 hc19 hd9]
      rw [Bool.not_eq_true] at h1
      rw [h1]; rfl
  · unfold colClauses at hC
    rcases List.mem_flatMap.mp hC with ⟨c, hc, hC2⟩
    rcases List.mem_flatMap.mp hC2 with ⟨d0, hd0, hC3⟩
    rcases List.mem_flatMap.mp hC3 with ⟨r1, hr1, hC4⟩
    rcases List.mem_map.mp hC4 with ⟨r2, hr2, rfl⟩
    have hc9 := List.mem_range.mp hc
    have hd9 := List.mem_range.mp hd0
    have hr19 := List.mem_range.mp hr1
    obtain ⟨hr2lo, hr2hi⟩ := mem_range'_iff.mp hr2
    have hr29 : r2 < 9 := by omega
    have hne := hCol ⟨c, hc9⟩ ⟨d0, hd9⟩ ⟨r1, hr19⟩ ⟨r2, hr29⟩
      (by intro e; have := Fin.mk.injEq .. ▸ e; simp at this; omega)
    by_cases h1 : a (varOf r1 c d0) = true
    · refine ⟨(litAt SudokuSat.new r2 c d0).negate, by simp, ?_⟩
      rw [eval_negate_new hr29 hc9 hd9]
      have h2 : a (varOf r2 c d0) = false := by
        have h2 : ¬ a (varOf r2 c d0) = true := fun h2 => hne ⟨h1, h2⟩
        rwa [Bool.not_eq_true] at h2
      rw [h2]; rfl
    · refine ⟨(litAt SudokuSat.new r1 c d0).negate, by simp, ?_⟩
      rw [eval_negate_new hr19 hc9 hd9]
      rw [Bool.not_eq_true] at h1
      rw [h1]; rfl
  · unfold boxClauses at hC
    rcases List.mem_flatMap.mp hC with ⟨d0, hd0, hC2⟩
    rcases List.mem_flatMap.mp hC2 with ⟨br, hbr, hC3⟩
    rcases List.mem_flatMap.mp hC3 with ⟨bc, hbc, hC4⟩
    simp only [boxCells_length] at hC4
    rcases List.mem_flatMap.mp hC4 with ⟨i, hi, hC5⟩
    rcases List.mem_map.mp hC5 with ⟨j, hj, rfl⟩
    have hd9 := List.mem_range.mp hd0
    have hbr3 := List.mem_range.mp hbr
    have hbc3 := List.mem_range.mp hbc
    have hi9 := List.mem_range.mp hi
    obtain ⟨hjlo, hjhi⟩ := mem_range'_iff.mp hj
    have hj9 : j < 9 := by omega
    rw [boxCells_getD hi9, boxCells_getD hj9]
    have hri : br * 3 + i / 3 < 9 := by omega
    have hci : bc * 3 + i % 3 < 9 := by omega
    have hrj : br * 3 + j / 3 < 9 := by omega
    have hcj : bc * 3 + j % 3 < 9 := by omega
    have hbox : sameBox ⟨br * 3 + i / 3, hri⟩ ⟨bc * 3 + i % 3, hci⟩
        ⟨br * 3 + j / 3, hrj⟩ ⟨bc * 3 + j % 3, hcj⟩ := by
      constructor <;> simp <;> omega
    have hdist : ¬((⟨br * 3 + i / 3, hri⟩ : Fin 9) = ⟨br * 3 + j / 3, hrj⟩ ∧
        (⟨bc * 3 + i % 3, hci⟩ : Fin 9) = ⟨bc * 3 + j % 3, hcj⟩) := by
      rintro ⟨e1, e2⟩
      have e1v : br * 3 + i / 3 = br * 3 + j / 3 := congrArg Fin.val e1
      have e2v : bc * 3 + i % 3 = bc * 3 + j % 3 := congrArg Fin.val e2
      omega
    have hne := hBox ⟨d0, hd9⟩ _ _ _ _ hbox hdist
    by_cases h1 : a (varOf (br * 3 + i / 3) (bc * 3 + i % 3) d0) = true
    · refine ⟨(litAt SudokuSat.new (br * 3 + j / 3) (bc * 3 + j % 3) d0).negate, by simp, ?_⟩
      rw [eval_negate_new hrj hcj hd9]
      have h2 : a (varOf (br * 3 + j / 3) (bc * 3 + j % 3) d0) = false := by
        have h2 : ¬ a (varOf (br * 3 + j / 3) (bc * 3 + j % 3) d0) = true := fun h2 => hne ⟨h1, h2⟩
        rwa [Bool.not_eq_true] at h2
      rw [h2]; rfl
    · refine ⟨(litAt SudokuSat.new (br * 3 + i / 3) (bc * 3 + i % 3) d0).negate, by simp, ?_⟩
      rw [eval_negate_new hri hci hd9]
      rw [Bool.not_eq_true] at h1
      rw [h1]; rfl
  · unfold clueClauses at hC
    rcases List.mem_flatMap.mp hC with ⟨r, _, hC2⟩
    rcases List.mem_flatMap.mp hC2 with ⟨c, _, hC3⟩
    by_cases h0 : p r c ≠ 0
    · rw [if_pos h0] at hC3
      rcases List.mem_singleton.mp hC3 with rfl
      have hd9 : p r c - 1 < 9 := by
        have := hw r c
        omega
      refine ⟨litAt SudokuSat.new r.val c.val (p r c - 1), List.mem_singleton.mpr rfl, ?_⟩
      rw [eval_new r.isLt c.isLt hd9]
      exact hClue r c h0
    · rw [if_neg h0] at hC3
      exact absurd hC3 (List.not_mem_nil _)

/-- Counting argument: under the emitted clauses, each cell has exactly one
true digit literal (the minimal encoding omits the per-cell at-most-one
clauses, but they are entailed). -/
theorem good_unique {p : Grid} {a : Assignment} (hg : GoodAssignment p a) (r c : Fin 9)
    {d e : Fin 9} (hd : a (varOf r.val c.val d.val) = true)
    (he2 : a (varOf r.val c.val e.val) = true) : d = e := by
  classical
  obtain ⟨hDef, hRow, _, _, _⟩ := hg
  set f : Fin 9 → Fin 9 := fun c2 => Classical.choose (hDef r c2) with hf
  have hfspec : ∀ c2, a (varOf r.val c2.val (f c2).val) = true := fun c2 =>
    Classical.choose_spec (hDef r c2)
  have hinj : Function.Injective f := by
    intro c1 c2 hee
    by_contra hne
    exact hRow r (f c1) c1 c2 hne ⟨hfspec c1, by rw [hee]; exact hfspec c2⟩
  have hsurj := Finite.injective_iff_surjective.mp hinj
  have key : ∀ x : Fin 9, a (varOf r.val c.val x.val) = true → f c = x := by
    intro x hx
    rcases hsurj x with ⟨c2, hc2⟩
    by_cases hcc : c2 = c
    · rw [hcc] at hc2
      exact hc2
    · exfalso
      have h1 : a (varOf r.val c2.val x.val) = true := by rw [← hc2]; exact hfspec c2
      exact hRow r x c2 c hcc ⟨h1, hx⟩
  exact (key d hd).symm.trans (key e he2)

theorem find?_congr {α : Type} {p q : α → Bool} :
    ∀ l : List α, (∀ x ∈ l, p x = q x) → l.find? p = l.find? q := by
  intro l
  induction l with
  | nil => intro _; rfl
  | cons x t ih =>
    intro h
    have hx := h x (List.mem_cons_self x t)
    rcases hqx : q x with _ | _
    · rw [List.find?_cons_of_neg _ (by rw [hx, hqx]; exact Bool.false_ne_true),
        List.find?_cons_of_neg _ (by rw [hqx]; exact Bool.false_ne_true)]
      exact ih (fun y hy => h y (List.mem_cons_of_mem _ hy))
    · rw [List.find?_cons_of_pos _ (by rw [hx, hqx]), List.find?_cons_of_pos _ hqx]

theorem extract_grid_eq (a : Assignment) (r c : Fin 9) :
    extract_grid SudokuSat.new a r c =
      match (List.range 9).find? (fun d0 => a (varOf r.val c.val d0)) with
      | some d0 => d0 + 1
      | none => 0 := by
  unfold extract_grid
  rw [find?_congr (List.range 9) (fun d0 hd0 => by
    rw [litAt_new r.isLt c.isLt (List.mem_range.mp hd0)])]

theorem extract_grid_zero_iff {a : Assignment} {r c : Fin 9} :
    extract_grid SudokuSat.new a r c = 0 ↔ ∀ d : Fin 9, a (varOf r.val c.val d.val) = false := by
  rw [extract_grid_eq]
  rcases hfind : (List.range 9).find? (fun d0 => a (varOf r.val c.val d0)) with _ | d0
  · constructor
    · intro _ d
      have := List.find?_eq_none.mp hfind d.val (List.mem_range.mpr d.isLt)
      simpa using this
    · intro _
      rfl
  · constructor
    · intro h
      have h2 : d0 + 1 = 0 := h
      omega
    · intro hall
      have hpred := List.find?_some hfind
      have hd9 : d0 < 9 := List.mem_range.mp (List.mem_of_find?_eq_some hfind)
      rw [hall ⟨d0, hd9⟩] at hpred
      exact absurd hpred Bool.false_ne_true

theorem extract_grid_found {a : Assignment} {r c : Fin 9}
    (h : ∃ d : Fin 9, a (varOf r.val c.val d.val) = true) :
    ∃ d : Fin 9, extract_grid SudokuSat.new a r c = d.val + 1 ∧
      a (varOf r.val c.val d.val) = true ∧
      ∀ e : Fin 9, e.val < d.val → a (varOf r.val c.val e.val) = false := by
  rcases hfind : (List.range 9).find? (fun d0 => a (varOf r.val c.val d0)) with _ | d0
  · exfalso
    rcases h with ⟨d, hd⟩
    have := List.find?_eq_none.mp hfind d.val (List.mem_range.mpr d.isLt)
    rw [hd] at this
    simp at this
  · obtain ⟨hmem, hpd, hmin⟩ := find?_sorted_elim nat_lt_asymm (List.range 9) range9_pairwise d0 hfind
    have hd9 : d0 < 9 := List.mem_range.mp hmem
    refine ⟨⟨d0, hd9⟩, ?_, hpd, ?_⟩
    · rw [extract_grid_eq, hfind]
    · intro e he
      exact hmin e.val (List.mem_range.mpr e.isLt) he

theorem extract_at_true {p : Grid} {a : Assignment} (hg : GoodAssignment p a) (r c : Fin 9)
    {d : Fin 9} (hd : a (varOf r.val c.val d.val) = true) :
    extract_grid SudokuSat.new a r c = d.val + 1 := by
  rcases extract_grid_found ⟨d, hd⟩ with ⟨d2, he, ht, _⟩
  rw [he, good_unique hg r c ht hd]

set_option maxRecDepth 1000000 in
theorem extract_model_eq (p : Grid) (a : Assignment) :
    extract_grid (sudokuModel p) a = extract_grid SudokuSat.new a := rfl

/-- Decoding a satisfying assignment yields a completion of the puzzle. -/
theorem extract_completion {p : Grid} {a : Assignment} (hw : wellFormed p)
    (h : cnfSat a (sudokuCnf p)) : completionOf p (extract_grid (sudokuModel p) a) := by
  have hg := cnfSat_good hw h
  obtain ⟨hDef, hRow, hCol, hBox, hClue⟩ := hg
  have hg2 : GoodAssignment p a := ⟨hDef, hRow, hCol, hBox, hClue⟩
  rw [extract_model_eq]
  have hval : ∀ r c : Fin 9, ∃ d : Fin 9, extract_grid SudokuSat.new a r c = d.val + 1 ∧
      a (varOf r.val c.val d.val) = true := by
    intro r c
    rcases extract_grid_found (hDef r c) with ⟨d, he, ht, _⟩
    exact ⟨d, he, ht⟩
  refine ⟨?_, ?_, ?_, ?_⟩
  · intro r c
    rcases hval r c with ⟨d, he, _⟩
    rw [he]
    have := d.isLt
    omega
  · intro r c rr cc hunit hdist hnz heq
    rcases hval r c with ⟨d, he, ht⟩
    rcases hval rr cc with ⟨d2, he2, ht2⟩
    rw [he, he2] at heq
    obtain rfl : d = d2 := Fin.ext (by omega)
    have hdist2 : ¬(r = rr ∧ c = cc) := by
      rintro ⟨rfl, rfl⟩
      rcases hdist with h2 | h2 <;> exact h2 rfl
    rcases hunit with rfl | rfl | hbox2
    · have hne : c ≠ cc := fun e => hdist2 ⟨rfl, e⟩
      exact hRow r d c cc hne ⟨ht, ht2⟩
    · have hne : r ≠ rr := fun e => hdist2 ⟨e, rfl⟩
      exact hCol c d r rr hne ⟨ht, ht2⟩
    · exact hBox d r c rr cc hbox2 hdist2 ⟨ht, ht2⟩
  · intro r c h0
    rcases hval r c with ⟨d, he, _⟩
    rw [he] at h0
    omega
  · intro r c h0
    have hd9 : p r c - 1 < 9 := by
      have := hw r c
      omega
    have ht := hClue r c h0
    have he := extract_at_true hg2 r c (d := ⟨p r c - 1, hd9⟩) ht
    rw [he]
    show p r c - 1 + 1 = p r c
    omega

/-- Clamp a number below 9 into `Fin 9`. -/
def finOfMod (v : Nat) : Fin 9 := ⟨v % 9, Nat.mod_lt v (by norm_num)⟩

/-- The assignment induced by a filled grid: variable `81 r + 9 c + d0` is
true exactly when the grid holds digit `d0 + 1` at `(r, c)`. -/
def assignOf (S : Grid) : Assignment := fun v =>
  if v < 729 then decide (S (finOfMod (v / 81)) (finOfMod (v / 9)) = v % 9 + 1) else false

theorem assignOf_varOf (S : Grid) (r c d0 : Fin 9) :
    assignOf S (varOf r.val c.val d0.val) = decide (S r c = d0.val + 1) := by
  have hr := r.isLt
  have hc := c.isLt
  have hd := d0.isLt
  unfold assignOf varOf
  rw [if_pos (by omega : 81 * r.val + 9 * c.val + d0.val < 729)]
  have hx : finOfMod ((81 * r.val + 9 * c.val + d0.val) / 81) = r := by
    apply Fin.ext
    simp only [finOfMod]
    omega
  have hy : finOfMod ((81 * r.val + 9 * c.val + d0.val) / 9) = c := by
    apply Fin.ext
    simp only [finOfMod]
    omega
  have hmod : (81 * r.val + 9 * c.val + d0.val) % 9 = d0.val := by omega
  rw [hx, hy, hmod]

/-- A completion of `p` induces a satisfying assignment of the emitted CNF. -/
theorem good_of_completion {p S : Grid} (hw : wellFormed p) (hs : completionOf p S) :
    GoodAssignment p (assignOf S) := by
  obtain ⟨hwS, hcS, hnzS, hagS⟩ := hs
  refine ⟨?_, ?_, ?_, ?_, ?_⟩
  · intro r c
    have h1 : S r c ≠ 0 := hnzS r c
    have h2 : S r c ≤ 9 := hwS r c
    refine ⟨⟨S r c - 1, by omega⟩, ?_⟩
    rw [assignOf_varOf]
    exact decide_eq_true (show S r c = S r c - 1 + 1 by omega)
  · intro r d c1 c2 hne h2
    obtain ⟨h1, h2⟩ := h2
    rw [assignOf_varOf] at h1 h2
    have e1 := of_decide_eq_true h1
    have e2 := of_decide_eq_true h2
    exact hcS r c1 r c2 (Or.inl rfl) (Or.inr hne) (by omega) (by omega)
  · intro c d r1 r2 hne h2
    obtain ⟨h1, h2⟩ := h2
    rw [assignOf_varOf] at h1 h2
    have e1 := of_decide_eq_true h1
    have e2 := of_decide_eq_true h2
    exact hcS r1 c r2 c (Or.inr (Or.inl rfl)) (Or.inl hne) (by omega) (by omega)
  · intro d r1 c1 r2 c2 hbox hdist h2
    obtain ⟨h1, h2⟩ := h2
    rw [assignOf_varOf] at h1 h2
    have e1 := of_decide_eq_true h1
    have e2 := of_decide_eq_true h2
    have hdist2 : r1 ≠ r2 ∨ c1 ≠ c2 := by
      by_cases h : r1 = r2
      · exact Or.inr (fun e => hdist ⟨h, e⟩)
      · exact Or.inl h
    exact hcS r1 c1 r2 c2 (Or.inr (Or.inr hbox)) hdist2 (by omega) (by omega)
  · intro r c h0
    have hd9 : p r c - 1 < 9 := by
      have := hw r c
      omega
    have hag := hagS r c h0
    have hv := assignOf_varOf S r c ⟨p r c - 1, hd9⟩
    rw [hv]
    exact decide_eq_true (show S r c = p r c - 1 + 1 by omega)

/-- A puzzle admitting a completion has a satisfiable CNF. -/
theorem cnf_satisfiable {p : Grid} (hw : wellFormed p) {S : Grid} (hs : completionOf p S) :
    ∃ a : Assignment, cnfSat a (sudokuCnf p) :=
  ⟨assignOf S, good_cnfSat hw (good_of_completion hw hs)⟩

/-! ## Clause counting -/

theorem length_flatMap_sum {α β : Type} (l : List α) (f : α → List β) :
    (l.flatMap f).length = (l.map fun x => (f x).length).sum := by
  induction l with
  | nil => rfl
  | cons a t ih => simp [List.flatMap_cons, ih]

theorem length_flatMap_const {α β : Type} (l : List α) (f : α → List β) (k : Nat)
    (h : ∀ x ∈ l, (f x).length = k) : (l.flatMap f).length = l.length * k := by
  induction l with
  | nil => simp
  | cons a t ih =>
    simp only [List.flatMap_cons, List.length_append, List.length_cons]
    rw [h a (List.mem_cons_self a t), ih (fun x hx => h x (List.mem_cons_of_mem a hx))]
    ring

theorem cellClauses_length (s : SudokuSat) : (cellClauses s).length = 81 := by
  unfold cellClauses
  rw [length_flatMap_const _ _ 9 (by intro x hx; simp)]
  simp

theorem rowClauses_length (s : SudokuSat) : (rowClauses s).length = 2916 := by
  unfold rowClauses
  rw [length_flatMap_const _ _ 324]
  · simp
  intro row hr
  rw [length_flatMap_const _ _ 36]
  · simp
  intro d0 hd
  rw [length_flatMap_sum]
  simp only [List.length_map, List.length_range']
  decide

theorem colClauses_length (s : SudokuSat) : (colClauses s).length = 2916 := by
  unfold colClauses
  rw [length_flatMap_const _ _ 324]
  · simp
  intro col hc
  rw [length_flatMap_const _ _ 36]
  · simp
  intro d0 hd
  rw [length_flatMap_sum]
  simp only [List.length_map, List.length_range']
  decide

theorem boxClauses_length (s : SudokuSat) : (boxClauses s).length = 2916 := by
  unfold boxClauses
  rw [length_flatMap_const _ _ 324]
  · simp
  intro d0 hd
  rw [length_flatMap_const _ _ 108]
  · simp
  intro br hbr
  rw [length_flatMap_const _ _ 36]
  · simp
  intro bc hbc
  rw [length_flatMap_sum]
  simp only [List.length_map, List.length_range', boxCells_length]
  decide

set_option maxRecDepth 1000000 in
theorem new_clauses_nil : SudokuSat.new.inst.clauses = [] := rfl

/-! ## Checked literal-map indexing -/

theorem foldlM_option_isSome {α β : Type} (l : List α) (step : β → α → Option β)
    (h : ∀ acc x, x ∈ l → (step acc x).isSome) : ∀ init, (l.foldlM step init).isSome := by
  induction l with
  | nil => intro init; rfl
  | cons a t ih =>
    intro init
    rcases hstep : step init a with _ | b
    · have := h init a (List.mem_cons_self a t)
      rw [hstep] at this
      exact absurd this (by simp)
    · rw [List.foldlM_cons, hstep]
      exact ih (fun acc x hx => h acc x (List.mem_cons_of_mem a hx)) b

set_option maxRecDepth 40000 in
theorem litAtChecked_new : ∀ r c d0 : Fin 9,
    litAtChecked SudokuSat.new r.val c.val d0.val =
      some ⟨varOf r.val c.val d0.val, false⟩ := by decide

set_option maxRecDepth 1000000 in
theorem litAtChecked_minimal (r c d0 : Nat) :
    litAtChecked (add_minimal_sudoku_constraints SudokuSat.new) r c d0 =
      litAtChecked SudokuSat.new r c d0 := rfl

/-! ## Unsatisfiability on directly contradictory clues -/

theorem contra_unsat {g : Grid} {a : Assignment} (hw : wellFormed g)
    (hpair : hasContraPair g) : ¬ cnfSat a (sudokuCnf g) := by
  intro hsat
  obtain ⟨r, c, rr, cc, hunit, hdist, hnz, heq⟩ := hpair
  obtain ⟨_, hRow, hCol, hBox, hClue⟩ := cnfSat_good hw hsat
  have hd9 : g r c - 1 < 9 := by
    have := hw r c
    omega
  have h1 := hClue r c hnz
  have h2 := hClue rr cc (by rw [← heq]; exact hnz)
  rw [← heq] at h2
  have hdist2 : ¬(r = rr ∧ c = cc) := by
    rintro ⟨rfl, rfl⟩
    rcases hdist with h | h <;> exact h rfl
  rcases hunit with rfl | rfl | hbox
  · exact hRow r ⟨g r c - 1, hd9⟩ c cc (fun e => hdist2 ⟨rfl, e⟩) ⟨h1, h2⟩
  · exact hCol c ⟨g r c - 1, hd9⟩ r rr (fun e => hdist2 ⟨e, rfl⟩) ⟨h1, h2⟩
  · exact hBox ⟨g r c - 1, hd9⟩ r c rr cc hbox hdist2 ⟨h1, h2⟩

/-! ## The contradictory-clue puzzle and the backtracking search -/

/-- The spec's infeasible scenario: clues `[0][0] = 5` and `[0][1] = 5`,
all other cells empty. -/
def puzzle55 : Grid := fun r c => if r = 0 ∧ (c = 0 ∨ c = 1) then 5 else 0

theorem puzzle55_zero {r c : Fin 9} (hr : r ≠ 0) : puzzle55 r c = 0 := by
  simp [puzzle55, hr]

/-- The backtracking solver fails on the contradictory puzzle: any returned
grid would put a 5 in each of the eight rows 1..8, in pairwise distinct
columns other than 0 and 1, an injection of 8 rows into 7 columns. -/
theorem backtracking_p55_none : backtrackingSolve puzzle55 = none := by
  rcases hsol : backtrackingSolve puzzle55 with _ | g2
  · rfl
  · exfalso
    obtain ⟨h1, h2, h3, h4⟩ := solve_grid_sound 82 puzzle55 g2 hsol
    have hp00 : puzzle55 0 0 = 5 := rfl
    have hp01 : puzzle55 0 1 = 5 := rfl
    have hg00 : g2 0 0 = 5 := by
      rw [h1 0 0 (by rw [hp00]; omega), hp00]
    have hg01 : g2 0 1 = 5 := by
      rw [h1 0 1 (by rw [hp01]; omega), hp01]
    have hrow5 : ∀ r : Fin 9, r ≠ 0 → ∃ c : Fin 9, g2 r c = 5 := by
      intro r hr
      have hb : ∀ c : Fin 9, 1 ≤ g2 r c ∧ g2 r c ≤ 9 := fun c => h3 r c (puzzle55_zero hr)
      have hinj : Function.Injective (fun c : Fin 9 => (⟨g2 r c - 1, by
          have := hb c; omega⟩ : Fin 9)) := by
        intro c1 c2 he
        by_contra hne
        have hval := h4 r c1 r c2 (Or.inl rfl) (by rintro ⟨_, e⟩; exact hne e)
          (puzzle55_zero hr)
        have hv1 : g2 r c1 - 1 = g2 r c2 - 1 := congrArg Fin.val he
        have hb1 := hb c1
        have hb2 := hb c2
        exact hval (by omega)
      rcases Finite.injective_iff_surjective.mp hinj ⟨4, by norm_num⟩ with ⟨c, hc⟩
      refine ⟨c, ?_⟩
      have hcv : g2 r c - 1 = 4 := congrArg Fin.val hc
      have := hb c
      omega
    classical
    set pick : Fin 9 → Fin 9 :=
      fun r => if h : ∃ c : Fin 9, g2 r c = 5 then Classical.choose h else 0 with hpick
    have hpick5 : ∀ r : Fin 9, r ≠ 0 → g2 r (pick r) = 5 := by
      intro r hr
      rcases hrow5 r hr with ⟨c, hc⟩
      rw [hpick]
      simp only []
      rw [dif_pos (⟨c, hc⟩ : ∃ c2 : Fin 9, g2 r c2 = 5)]
      exact Classical.choose_spec (⟨c, hc⟩ : ∃ c2 : Fin 9, g2 r c2 = 5)
    have havoid : ∀ r : Fin 9, r ≠ 0 → (pick r).val ≠ 0 ∧ (pick r).val ≠ 1 := by
      intro r hr
      constructor
      · intro h0
        have hdiff := h4 r (pick r) 0 0 (Or.inr (Or.inl (Fin.ext h0)))
          (by rintro ⟨e, _⟩; exact hr e) (puzzle55_zero hr)
        exact hdiff (by rw [hpick5 r hr, hg00])
      · intro h0
        have hdiff := h4 r (pick r) 0 1 (Or.inr (Or.inl (Fin.ext h0)))
          (by rintro ⟨e, _⟩; exact hr e) (puzzle55_zero hr)
        exact hdiff (by rw [hpick5 r hr, hg01])
    have hpickinj : ∀ r1 r2 : Fin 9, r1 ≠ 0 → r2 ≠ 0 → r1 ≠ r2 → pick r1 ≠ pick r2 := by
      intro r1 r2 hr1 hr2 hne he
      have hdiff := h4 r1 (pick r1) r2 (pick r2) (Or.inr (Or.inl he))
        (by rintro ⟨e, _⟩; exact hne e) (puzzle55_zero hr1)
      exact hdiff (by rw [hpick5 r1 hr1, hpick5 r2 hr2])
    have hcard : Finset.card (Finset.univ.filter (fun r : Fin 9 => r ≠ 0)) ≤
        Finset.card (Finset.univ.filter (fun c : Fin 9 => 2 ≤ c.val)) := by
      apply Finset.card_le_card_of_injOn pick
      · intro r hrmem
        have hr : r ≠ 0 := (Finset.mem_filter.mp hrmem).2
        have hav := havoid r hr
        refine Finset.mem_filter.mpr ⟨Finset.mem_univ _, ?_⟩
        have := (pick r).isLt
        omega
      · intro r1 hm1 r2 hm2 he
        by_contra hne
        exact hpickinj r1 r2 (Finset.mem_filter.mp hm1).2 (Finset.mem_filter.mp hm2).2 hne he
    have e1 : Finset.card (Finset.univ.filter (fun r : Fin 9 => r ≠ 0)) = 8 := by decide
    have e2 : Finset.card (Finset.univ.filter (fun c : Fin 9 => 2 ≤ c.val)) = 7 := by decide
    omega

/-! ## Concrete boards used for witnesses -/

/-- The all-empty puzzle. -/
def emptyGrid : Grid := fun _ _ => 0

/-- A complete, consistent sudoku grid. -/
def solvedGrid : Grid := Grid.ofRows [
  [5,3,4,6,7,8,9,1,2],
  [6,7,2,1,9,5,3,4,8],
  [1,9,8,3,4,2,5,6,7],
  [8,5,9,7,6,1,4,2,3],
  [4,2,6,8,5,3,7,9,1],
  [7,1,3,9,2,4,8,5,6],
  [9,6,1,5,3,7,2,8,4],
  [2,8,7,4,1,9,6,3,5],
  [3,4,5,2,8,6,1,7,9]]

/-- The same grid with the top-left cell blanked out. -/
def oneEmptyGrid : Grid := fun r c => if r = 0 ∧ c = 0 then 0 else solvedGrid r c

/-- A well-formed full grid whose clues contradict each other everywhere. -/
def allFives : Grid := fun _ _ => 5

theorem completion_of_complete {g y : Grid} (hnz : noZeros g) (h : completionOf g y) : y = g :=
  funext fun r => funext fun c => h.2.2.2 r c (hnz r c)

/-! ## The claims -/

/-- C1: for every well-formed puzzle admitting a completion, the SAT strategy
returns Some of a grid that is complete (zero-free), consistent and agrees
with the puzzle's clues; equivalently, every assignment satisfying the
emitted clauses decodes, via `extract_grid`, to such a grid. -/
theorem C1_encoding_soundness (p : Grid) (hw : wellFormed p)
    (hex : ∃ s, completionOf p s) :
    (∀ res, SatSolveResult p res → ∃ G, res = some G ∧ noZeros G ∧ consistentGrid G ∧
      agreesClues p G) ∧
    (∀ a : Assignment, cnfSat a (sudokuCnf p) →
      noZeros (extract_grid (sudokuModel p) a) ∧
      consistentGrid (extract_grid (sudokuModel p) a) ∧
      agreesClues p (extract_grid (sudokuModel p) a)) := by
  obtain ⟨s, hs⟩ := hex
  have hsat := cnf_satisfiable hw hs
  constructor
  · intro res hres
    rcases hres with ⟨a, ha, rfl⟩ | ⟨hno, _⟩
    · obtain ⟨hwE, hcE, hnzE, hagE⟩ := extract_completion hw ha
      exact ⟨_, rfl, hnzE, hcE, hagE⟩
    · exact absurd hsat hno
  · intro a ha
    obtain ⟨hwE, hcE, hnzE, hagE⟩ := extract_completion hw ha
    exact ⟨hnzE, hcE, hagE⟩

set_option maxRecDepth 200000 in
theorem C1_encoding_soundness_witness :
    wellFormed solvedGrid ∧ completionOf solvedGrid solvedGrid ∧
    (∀ a : Assignment, cnfSat a (sudokuCnf solvedGrid) →
      noZeros (extract_grid (sudokuModel solvedGrid) a) ∧
      consistentGrid (extract_grid (sudokuModel solvedGrid) a) ∧
      agreesClues solvedGrid (extract_grid (sudokuModel solvedGrid) a)) :=
  ⟨by decide, by decide,
    (C1_encoding_soundness solvedGrid (by decide) ⟨solvedGrid, by decide⟩).2⟩

set_option maxRecDepth 200000 in
/-- C2 counterexample: the all-fives grid is well-formed and has directly
contradictory clue pairs, yet the backtracking solver returns it unchanged
(find_empty sees no empty cell), not None as the claim requires. -/
theorem C2_counterexample :
    wellFormed allFives ∧ hasContraPair allFives ∧
    backtrackingSolve allFives = some allFives := ⟨by decide, by decide, by decide⟩

/-- C2 amended: the SAT strategy's CNF is unsatisfiable (hence its solve
returns None) on every well-formed grid with a directly contradictory clue
pair, and on the specific puzzle with clues `[0][0]=5`, `[0][1]=5` and all
other cells empty both strategies return None.  The backtracking solver,
however, can return Some on such grids when the conflicting clues leave no
empty cell to refute (see the counterexample). -/
theorem C2_amended :
    (∀ (g : Grid) (a : Assignment), wellFormed g → hasContraPair g →
      ¬ cnfSat a (sudokuCnf g)) ∧
    (∀ res, SatSolveResult puzzle55 res → res = none) ∧
    backtrackingSolve puzzle55 = none := by
  refine ⟨fun g a hw hp => contra_unsat hw hp, ?_, backtracking_p55_none⟩
  intro res hres
  rcases hres with ⟨a, ha, _⟩ | ⟨_, h⟩
  · exact absurd ha (contra_unsat (by decide) (by decide))
  · exact h

set_option maxRecDepth 200000 in
theorem C2_amended_witness :
    wellFormed puzzle55 ∧ hasContraPair puzzle55 ∧
    ¬ cnfSat (fun _ => true) (sudokuCnf puzzle55) :=
  ⟨by decide, by decide, C2_amended.1 puzzle55 (fun _ => true) (by decide) (by decide)⟩

set_option maxRecDepth 1000000 in
/-- C3: the minimal constraints on a fresh instance with no clue clauses
hold exactly 8829 clauses: 81 nine-literal definedness clauses plus three
families of 2916 binary uniqueness clauses each. -/
theorem C3_clause_count :
    (add_minimal_sudoku_constraints SudokuSat.new).inst.clauses.length = 8829 ∧
    (sudokuCnf emptyGrid).length = 8829 ∧
    (cellClauses SudokuSat.new).length = 81 ∧
    (∀ C ∈ cellClauses SudokuSat.new, C.length = 9) ∧
    (rowClauses SudokuSat.new).length = 2916 ∧
    (∀ C ∈ rowClauses SudokuSat.new, C.length = 2) ∧
    (colClauses SudokuSat.new).length = 2916 ∧
    (∀ C ∈ colClauses SudokuSat.new, C.length = 2) ∧
    (boxClauses SudokuSat.new).length = 2916 ∧
    (∀ C ∈ boxClauses SudokuSat.new, C.length = 2) := by
  have hmain : (add_minimal_sudoku_constraints SudokuSat.new).inst.clauses.length = 8829 := by
    show (SudokuSat.new.inst.clauses ++ cellClauses SudokuSat.new ++ rowClauses SudokuSat.new ++
      colClauses SudokuSat.new ++ boxClauses SudokuSat.new).length = 8829
    rw [new_clauses_nil]
    simp only [List.length_append, List.nil_append, cellClauses_length, rowClauses_length,
      colClauses_length, boxClauses_length]
  have hclue : clueClauses (add_minimal_sudoku_constraints SudokuSat.new) emptyGrid = [] := by
    unfold clueClauses emptyGrid
    simp
  refine ⟨hmain, ?_, cellClauses_length _, ?_, rowClauses_length _, ?_, colClauses_length _,
    ?_, boxClauses_length _, ?_⟩
  · show ((add_minimal_sudoku_constraints SudokuSat.new).inst.clauses ++
      clueClauses (add_minimal_sudoku_constraints SudokuSat.new) emptyGrid).length = 8829
    rw [hclue]
    simp only [List.append_nil]
    exact hmain
  · intro C hC
    unfold cellClauses at hC
    rcases List.mem_flatMap.mp hC with ⟨r, _, hC2⟩
    rcases List.mem_map.mp hC2 with ⟨c, _, rfl⟩
    simp
  · intro C hC
    unfold rowClauses at hC
    rcases List.mem_flatMap.mp hC with ⟨r, _, hC2⟩
    rcases List.mem_flatMap.mp hC2 with ⟨d0, _, hC3⟩
    rcases List.mem_flatMap.mp hC3 with ⟨c1, _, hC4⟩
    rcases List.mem_map.mp hC4 with ⟨c2, _, rfl⟩
    rfl
  · intro C hC
    unfold colClauses at hC
    rcases List.mem_flatMap.mp hC with ⟨c, _, hC2⟩
    rcases List.mem_flatMap.mp hC2 with ⟨d0, _, hC3⟩
    rcases List.mem_flatMap.mp hC3 with ⟨r1, _, hC4⟩
    rcases List.mem_map.mp hC4 with ⟨r2, _, rfl⟩
    rfl
  · intro C hC
    unfold boxClauses at hC
    rcases List.mem_flatMap.mp hC with ⟨d0, _, hC2⟩
    rcases List.mem_flatMap.mp hC2 with ⟨br, _, hC3⟩
    rcases List.mem_flatMap.mp hC3 with ⟨bc, _, hC4⟩
    rcases List.mem_flatMap.mp hC4 with ⟨i, _, hC5⟩
    rcases List.mem_map.mp hC5 with ⟨j, _, rfl⟩
    rfl

set_option maxRecDepth 100000 in
/-- C4: the literal map allocates exactly 729 fresh variables, one per
`(row, col, digit)` in row-major digit-ascending order, with pairwise
distinct underlying variables, and no clause-adding operation modifies it. -/
theorem C4_literal_map :
    SudokuSat.new.inst.nextVar = 729 ∧
    (∀ r c d0 : Fin 9, litAt SudokuSat.new r.val c.val d0.val =
      ⟨varOf r.val c.val d0.val, false⟩) ∧
    (∀ r c d0 r2 c2 e0 : Fin 9, ¬(r = r2 ∧ c = c2 ∧ d0 = e0) →
      (litAt SudokuSat.new r.val c.val d0.val).var ≠
        (litAt SudokuSat.new r2.val c2.val e0.val).var) ∧
    (∀ s : SudokuSat, (add_minimal_sudoku_constraints s).literals = s.literals) ∧
    (∀ (s : SudokuSat) (p : Grid), (add_puzzle_clues s p).literals = s.literals) ∧
    (∀ (s : SudokuSat) (row col digit : Nat),
      (set_cell s row col digit).literals = s.literals) := by
  refine ⟨by decide, litAt_new_fin, ?_, fun _ => rfl, fun _ _ => rfl, fun _ _ _ _ => rfl⟩
  intro r c d0 r2 c2 e0 hne
  rw [litAt_new r.isLt c.isLt d0.isLt, litAt_new r2.isLt c2.isLt e0.isLt]
  intro he
  have he2 : varOf r.val c.val d0.val = varOf r2.val c2.val e0.val := he
  unfold varOf at he2
  have hr := r.isLt
  have hc := c.isLt
  have hd := d0.isLt
  have hr2 := r2.isLt
  have hc2 := c2.isLt
  have he0 := e0.isLt
  exact hne ⟨Fin.ext (by omega), Fin.ext (by omega), Fin.ext (by omega)⟩

theorem C4_literal_map_witness :
    ¬((0 : Fin 9) = 0 ∧ (0 : Fin 9) = 0 ∧ (0 : Fin 9) = (1 : Fin 9)) ∧
    (litAt SudokuSat.new 0 0 0).var ≠ (litAt SudokuSat.new 0 0 1).var :=
  ⟨by decide, C4_literal_map.2.2.1 0 0 0 0 0 1 (by decide)⟩

/-- C5: whenever either strategy returns a solution for a well-formed puzzle,
the solution preserves every nonzero clue. -/
theorem C5_clue_preservation (p S : Grid) (hw : wellFormed p)
    (h : SatSolveResult p (some S) ∨ backtrackingSolve p = some S) : agreesClues p S := by
  rcases h with hres | hback
  · rcases hres with ⟨a, ha, he⟩ | ⟨_, he⟩
    · obtain rfl : S = extract_grid (sudokuModel p) a := Option.some.inj he
      exact (extract_completion hw ha).2.2.2
    · exact absurd he (by simp)
  · exact (solve_grid_sound 82 p S hback).1

set_option maxRecDepth 200000 in
theorem C5_clue_preservation_witness :
    wellFormed solvedGrid ∧ backtrackingSolve solvedGrid = some solvedGrid ∧
    agreesClues solvedGrid solvedGrid :=
  ⟨by decide, by decide,
    C5_clue_preservation solvedGrid solvedGrid (by decide) (Or.inr (by decide))⟩

/-- C6: the backtracking solver (a pure function of its input) succeeds on
every well-formed, consistent puzzle admitting a completion and returns the
row-major, digit-ascending lexicographically smallest completion. -/
theorem C6_backtracking_minimal (p : Grid) (hw : wellFormed p) (hc : consistentGrid p)
    (hex : ∃ s, completionOf p s) :
    ∃ g2, backtrackingSolve p = some g2 ∧ completionOf p g2 ∧
      ∀ t, completionOf p t → gridLe g2 t := by
  obtain ⟨s, hs⟩ := hex
  exact solve_grid_complete 82 p (by have := emptyCount_le p; omega) hc hw s hs

set_option maxRecDepth 200000 in
theorem C6_backtracking_minimal_witness :
    wellFormed oneEmptyGrid ∧ consistentGrid oneEmptyGrid ∧
    completionOf oneEmptyGrid solvedGrid ∧
    ∃ g2, backtrackingSolve oneEmptyGrid = some g2 ∧ completionOf oneEmptyGrid g2 ∧
      ∀ t, completionOf oneEmptyGrid t → gridLe g2 t :=
  ⟨by decide, by decide, by decide,
    C6_backtracking_minimal oneEmptyGrid (by decide) (by decide) ⟨solvedGrid, by decide⟩⟩

/-- C7: on every well-formed puzzle with exactly one completion, the SAT
strategy and the backtracking strategy return Some of the same grid. -/
theorem C7_strategy_equivalence (p : Grid) (hw : wellFormed p)
    (huniq : ∃! s, completionOf p s) :
    ∀ res, SatSolveResult p res → ∃ G, res = some G ∧ backtrackingSolve p = some G := by
  obtain ⟨s, hs, huni⟩ := huniq
  have hc : consistentGrid p := by
    intro r c rr cc hunit hdist hnz heq
    obtain ⟨hwS, hcS, hnzS, hagS⟩ := hs
    have e1 : s r c = p r c := hagS r c hnz
    have e2 : s rr cc = p rr cc := hagS rr cc (by rw [← heq]; exact hnz)
    exact hcS r c rr cc hunit hdist (by rw [e1]; exact hnz) (by rw [e1, e2, heq])
  obtain ⟨g2, hbt, hcomp2, _⟩ :=
    solve_grid_complete 82 p (by have := emptyCount_le p; omega) hc hw s hs
  have hg2s : g2 = s := huni g2 hcomp2
  intro res hres
  rcases hres with ⟨a, ha, rfl⟩ | ⟨hno, _⟩
  · have hEs : extract_grid (sudokuModel p) a = s := huni _ (extract_completion hw ha)
    refine ⟨_, rfl, ?_⟩
    rw [hEs, ← hg2s]
    exact hbt
  · exact absurd (cnf_satisfiable hw hs) hno

set_option maxRecDepth 200000 in
theorem C7_strategy_equivalence_witness :
    wellFormed solvedGrid ∧ completionOf solvedGrid solvedGrid ∧
    (∀ res, SatSolveResult solvedGrid res →
      ∃ G, res = some G ∧ backtrackingSolve solvedGrid = some G) :=
  ⟨by decide, by decide,
    C7_strategy_equivalence solvedGrid (by decide)
      ⟨solvedGrid, by decide, fun y hy => completion_of_complete (by decide) hy⟩⟩

/-- C8 counterexample: the decoder does not abort on degenerate assignments.
With no digit literal true at a cell it silently leaves the cell 0, and with
the digit literals 1 and 2 both true it silently writes 1. -/
theorem C8_counterexample :
    extract_grid SudokuSat.new (fun _ => false) 0 0 = 0 ∧
    (fun v => decide (v < 2)) (varOf 0 0 0) = true ∧
    (fun v => decide (v < 2)) (varOf 0 0 1) = true ∧
    extract_grid SudokuSat.new (fun v => decide (v < 2)) 0 0 = 1 := by
  refine ⟨?_, by decide, by decide, ?_⟩ <;>
    · set_option maxRecDepth 100000 in decide

/-- C8 amended: on a Sat verdict the decoder never aborts; a cell none of
whose digit literals is true is left 0, and a cell with at least one true
digit literal receives the smallest true digit, so with several true digits
the first is silently picked. -/
theorem C8_amended :
    ∀ (a : Assignment) (r c : Fin 9),
      (extract_grid SudokuSat.new a r c = 0 ↔
        ∀ d : Fin 9, a (varOf r.val c.val d.val) = false) ∧
      ((∃ d : Fin 9, a (varOf r.val c.val d.val) = true) →
        ∃ d : Fin 9, extract_grid SudokuSat.new a r c = d.val + 1 ∧
          a (varOf r.val c.val d.val) = true ∧
          ∀ e : Fin 9, e.val < d.val → a (varOf r.val c.val e.val) = false) :=
  fun _ _ _ => ⟨extract_grid_zero_iff, extract_grid_found⟩

theorem C8_amended_witness :
    (∃ d : Fin 9, (fun v => decide (v < 2)) (varOf (0 : Fin 9).val (0 : Fin 9).val d.val) = true) ∧
    ∃ d : Fin 9,
      extract_grid SudokuSat.new (fun v => decide (v < 2)) 0 0 = d.val + 1 ∧
      (fun v => decide (v < 2)) (varOf (0 : Fin 9).val (0 : Fin 9).val d.val) = true ∧
      ∀ e : Fin 9, e.val < d.val →
        (fun v => decide (v < 2)) (varOf (0 : Fin 9).val (0 : Fin 9).val e.val) = false :=
  ⟨⟨0, by decide⟩, (C8_amended (fun v => decide (v < 2)) 0 0).2 ⟨0, by decide⟩⟩

/-- C9: on well-formed input the clue encoder's literal-map indexing stays in
bounds: the index-checked rendition of `add_puzzle_clues` (whose `none`
models a Rust panic) always succeeds. -/
theorem C9_no_panic (p : Grid) (hw : wellFormed p) :
    (addPuzzleCluesChecked (add_minimal_sudoku_constraints SudokuSat.new) p).isSome := by
  apply foldlM_option_isSome
  intro acc r _
  apply foldlM_option_isSome
  intro acc2 c _
  by_cases h0 : p r c ≠ 0
  · rw [if_pos h0, litAtChecked_minimal]
    have hb : p r c - 1 < 9 := by
      have := hw r c
      omega
    rw [show litAtChecked SudokuSat.new r.val c.val (p r c - 1) =
      some ⟨varOf r.val c.val (p r c - 1), false⟩ from litAtChecked_new r c ⟨p r c - 1, hb⟩]
    rfl
  · rw [if_neg h0]
    rfl

theorem C9_no_panic_witness :
    wellFormed emptyGrid ∧
    (addPuzzleCluesChecked (add_minimal_sudoku_constraints SudokuSat.new) emptyGrid).isSome :=
  ⟨by decide, C9_no_panic emptyGrid (by decide)⟩

/-- C10: in the source the factory's variant type has only the `Sat`
constructor (`Backtracking` and `ExactCover` are commented out), so
`make_solver` can only ever return the SAT solver and the backtracking
strategy is unreachable through the factory, even though the TUI refers to
`SolverKind::Backtracking`. -/
theorem C10_factory_only_sat :
    ∀ k : SolverKind, make_solver k = Solver.Sat ∧ (make_solver k).isBacktracking = false := by
  intro k
  cases k
  exact ⟨rfl, rfl⟩
